import Mathlib

/-!
Verification development for the svgjs-em-editor diagram editor.

The definitions below are a shallow embedding of the JavaScript sources
(src/src/Element.js + elements.js, src/src/Connection.js,
src/src/ConnectionManager.js, src/src/InteractionManager.js).

Modelling conventions, used uniformly:
  * Coordinates are exact rationals.  The source computes
    Math.sqrt(dx*dx + dy*dy) and compares the results with a strict order;
    since the square root is strictly monotone, comparing the squared
    distances is equivalent, so the embedded argmin loop compares squared
    distances.
  * Element and connection ids are natural numbers drawn from the single
    global idCounter of the source (modelled as the counter field of the
    state).  Ids of distinct live objects are distinct, hence the
    reference-equality tests of the source (for example
    targetElement === currentSource) are embedded as id equality.
  * DOM lookups such as canvas.findOne are modelled by store lookups: the
    SVG group of an element exists exactly when the element is in the
    element manager store (createElement creates it, removeElement removes
    it).
  * The contenteditable div of an element is modelled by the divText field
    of the element; currentEditingDiv is modelled by the id of the element
    whose div is being edited (the editing field).
  * Object aliasing (a Connection object shared by the manager list and the
    two endpoint arrays) is modelled by storing equal records in all three
    lists; mutation through one reference is a map-update keyed by id.
-/

/-- Closed enumeration of element kinds, ELEMENT_TYPES of elements.js. -/
inductive ElemType
  | event
  | externalEvent
  | command
  | readModel
  | comment
  | processor
  | gui
  | slice
deriving DecidableEq

/-- The string value of each ELEMENT_TYPES entry; it is also the default
display name an element falls back to when its name is empty. -/
def typeName : ElemType → String
  | .event => "event"
  | .externalEvent => "external-event"
  | .command => "command"
  | .readModel => "read-model"
  | .comment => "comment"
  | .processor => "processor"
  | .gui => "gui"
  | .slice => "slice"

/-- The four sides of an element, keys of getConnectionPoints. -/
inductive Side
  | top
  | right
  | bottom
  | left
deriving DecidableEq

/-- An anchor point {x, y, side} as produced by findBestConnectionPoint. -/
structure APt where
  x : ℚ
  y : ℚ
  side : Side
deriving DecidableEq

/-- A Connection object: id, the two endpoint element ids (sourceElement and
targetElement references, identified by their ids), and the cached anchor
points sourcePoint and targetPoint. -/
structure Conn where
  id : Nat
  src : Nat
  tgt : Nat
  sourcePoint : APt
  targetPoint : APt
deriving DecidableEq

/-- An Element object of elements.js.  divText is the text content of the
contenteditable div created in Element.createSVG; connections is the array
of Connection objects touching this element. -/
structure ElementR where
  id : Nat
  type : ElemType
  x : ℚ
  y : ℚ
  name : String
  divText : String
  connections : List Conn
  width : ℚ
  height : ℚ
deriving DecidableEq

/-- ELEMENT_SIZES.WIDTH -/
def ELEMENT_WIDTH : ℚ := 120
/-- ELEMENT_SIZES.HEIGHT -/
def ELEMENT_HEIGHT : ℚ := 80
/-- ELEMENT_SIZES.SLICE_WIDTH -/
def SLICE_WIDTH : ℚ := 200
/-- ELEMENT_SIZES.SLICE_HEIGHT -/
def SLICE_HEIGHT : ℚ := 400

/-- The Element constructor (elements.js) combined with the initial div text
assignment of createSVG: contentDiv.textContent = this.name || this.type. -/
def mkElement (cnt : Nat) (t : ElemType) (x y : ℚ) (name : String) : ElementR :=
  { id := cnt
    type := t
    x := x
    y := y
    name := name
    divText := if name = "" then typeName t else name
    connections := []
    width := if t = ElemType.slice then SLICE_WIDTH else ELEMENT_WIDTH
    height := if t = ElemType.slice then SLICE_HEIGHT else ELEMENT_HEIGHT }

/-- Element.overlaps: slices never overlap anything; otherwise the
axis-aligned bounding box test of the source. -/
def overlaps (a b : ElementR) : Bool :=
  if a.type = ElemType.slice ∨ b.type = ElemType.slice then false
  else
    !(decide (a.x + a.width < b.x) || decide (a.x > b.x + b.width) ||
      decide (a.y + a.height < b.y) || decide (a.y > b.y + b.height))

/-- Element.getConnectionPoints, in the iteration order of Object.entries:
top, right, bottom, left. -/
def getConnectionPoints (e : ElementR) : List APt :=
  [ ⟨e.x + e.width / 2, e.y, Side.top⟩
  , ⟨e.x + e.width, e.y + e.height / 2, Side.right⟩
  , ⟨e.x + e.width / 2, e.y + e.height, Side.bottom⟩
  , ⟨e.x, e.y + e.height / 2, Side.left⟩ ]

/-- Squared Euclidean distance between two anchor points (the source takes
the square root before comparing; the square root is strictly monotone, so
the comparisons are unchanged). -/
def sqDist (p q : APt) : ℚ :=
  (p.x - q.x) * (p.x - q.x) + (p.y - q.y) * (p.y - q.y)

/-- The minimum-selection loop of findBestConnectionPoint: best = null,
minDistance = Infinity, and each candidate with a strictly smaller distance
replaces the current best.  none plays the role of the initial null/Infinity
state. -/
def selMin {α : Type} (f : α → ℚ) (l : List α) : Option α :=
  l.foldl
    (fun acc c =>
      match acc with
      | none => some c
      | some b => if f c < f b then some c else some b)
    none

/-- The sixteen candidate pairs of findBestConnectionPoint, in loop order:
outer loop over the source points, inner loop over the target points. -/
def candPairs (a b : ElementR) : List (APt × APt) :=
  (getConnectionPoints a).flatMap fun p => (getConnectionPoints b).map fun q => (p, q)

/-- Element.findBestConnectionPoint.  The default value is never used: the
candidate list always has sixteen entries. -/
def findBestConnectionPoint (a b : ElementR) : APt × APt :=
  (selMin (fun c => sqDist c.1 c.2) (candPairs a b)).getD
    (⟨0, 0, Side.top⟩, ⟨0, 0, Side.top⟩)

/-- The Connection constructor: assigns the id, stores the endpoints, and
caches the best pair of anchor points as sourcePoint and targetPoint. -/
def mkConnection (cid : Nat) (a b : ElementR) : Conn :=
  let r := findBestConnectionPoint a b
  { id := cid, src := a.id, tgt := b.id, sourcePoint := r.1, targetPoint := r.2 }

/-- ElementManager.getElementById. -/
def getElementById (es : List ElementR) (i : Nat) : Option ElementR :=
  es.find? (fun e => e.id = i)

/-- Mutation of the unique element object with a given id.  The source
mutates the object in place through a reference; since live ids are unique,
this equals a map that rewrites exactly the matching entries. -/
def updateElem (es : List ElementR) (i : Nat) (f : ElementR → ElementR) : List ElementR :=
  es.map fun e => if e.id = i then f e else e

/-- ElementManager.hasCollision: slices never collide; otherwise some other
non-slice element with a different id overlaps. -/
def hasCollision (es : List ElementR) (e : ElementR) : Bool :=
  if e.type = ElemType.slice then false
  else es.any fun other =>
    decide (other.id ≠ e.id) && decide (other.type ≠ ElemType.slice) && overlaps e other

/-- One collision-avoidance offset: element.x += 20; element.y += 20. -/
def offsetElem (e : ElementR) : ElementR :=
  { e with x := e.x + 20, y := e.y + 20 }

/-- The createElement placement loop:
while (hasCollision(element) and attempts < maxAttempts) offset, with
maxAttempts = 5 supplied as fuel. -/
def placeAttempts (es : List ElementR) : ElementR → Nat → ElementR
  | e, 0 => e
  | e, n + 1 => if hasCollision es e then placeAttempts es (offsetElem e) n else e

/-- The combined mutable state of ElementManager, ConnectionManager and
InteractionManager.

  * elements, conns: the two stores (this.elements, this.connections).
  * counter: the global idCounter of elements.js.
  * selected: id of this.selectedElement (none for null).
  * editing: id of the element whose contenteditable div is
    this.currentEditingDiv (none for null).
  * connMode, connSource, tempLine: connectionMode, id of sourceElement,
    and presence of the temporary dashed line.
  * elemMenu: the element whose context menu is displayed, if any.
  * connMenu: contextTargetConnection together with the visibility of the
    connection context menu.
  * dragging: id of currentDraggingElement.
  * panKey, panning: isPanningKeyPressed and isPanning. -/
structure AppState where
  elements : List ElementR
  conns : List Conn
  counter : Nat
  selected : Option Nat
  editing : Option Nat
  connMode : Bool
  connSource : Option Nat
  tempLine : Bool
  elemMenu : Option Nat
  connMenu : Option Conn
  dragging : Option Nat
  panKey : Bool
  panning : Bool
deriving DecidableEq

/-- The state at page load: empty stores, idCounter = 1, nothing selected,
no edit, no draft, no menus. -/
def initState : AppState :=
  { elements := []
    conns := []
    counter := 1
    selected := none
    editing := none
    connMode := false
    connSource := none
    tempLine := false
    elemMenu := none
    connMenu := none
    dragging := none
    panKey := false
    panning := false }

/-- ElementManager.createElement: construct the element, run the bounded
collision-avoidance loop (maxAttempts = 5), then always push the element
onto the store (the still-colliding case only logs a warning). -/
def createElement (st : AppState) (t : ElemType) (x y : ℚ) (name : String) :
    ElementR × AppState :=
  let e := placeAttempts st.elements (mkElement st.counter t x y name) 5
  (e, { st with elements := st.elements ++ [e], counter := st.counter + 1 })

/-- ConnectionManager.getConnectionsForElement: connections whose source or
target is the given element. -/
def getConnectionsForElement (conns : List Conn) (eid : Nat) : List Conn :=
  conns.filter fun c => decide (c.src = eid) || decide (c.tgt = eid)

/-- Append a connection object to the connections array of an element
(element.connections.push(connection)). -/
def pushConn (c : Conn) (e : ElementR) : ElementR :=
  { e with connections := e.connections ++ [c] }

/-- Remove the first array entry with the id of the given connection
(findIndex by id followed by splice; absent means no-op). -/
def eraseConnById (cid : Nat) (e : ElementR) : ElementR :=
  { e with connections := e.connections.eraseP fun d => decide (d.id = cid) }

/-- ConnectionManager.removeConnection: delete the connection, by id, from
the source element array, the target element array, and the manager list
(in that order).  The SVG removal has no state in the model. -/
def applyRemoveConnection (st : AppState) (c : Conn) : AppState :=
  { st with
    elements := updateElem (updateElem st.elements c.src (eraseConnById c.id)) c.tgt
      (eraseConnById c.id)
    conns := st.conns.eraseP fun d => decide (d.id = c.id) }

/-- The anchor recomputation performed for one connection by
updateConnectionsForElement (and by the recreate fallback): both paths set
sourcePoint and targetPoint from findBestConnectionPoint on the live
endpoint elements.  In the source the endpoints are object references and
always resolve; the fallback branch for a failed store lookup is
unreachable there. -/
def recomputeConn (es : List ElementR) (c : Conn) : Conn :=
  match getElementById es c.src, getElementById es c.tgt with
  | some a, some b =>
      let r := findBestConnectionPoint a b
      { c with sourcePoint := r.1, targetPoint := r.2 }
  | _, _ => c

/-- ConnectionManager.updateConnectionsForElement: filter the connections
attached to the element and update exactly those. -/
def updateConnectionsForElement (st : AppState) (eid : Nat) : AppState :=
  { st with
    conns := st.conns.map fun c =>
      if decide (c.src = eid) || decide (c.tgt = eid) then recomputeConn st.elements c
      else c }

/-- ConnectionManager.cancelConnection. -/
def cancelConnection (st : AppState) : AppState :=
  if st.connMode then
    { st with tempLine := false, connMode := false, connSource := none }
  else st

/-- ConnectionManager.startConnection: cancel a previous draft if one is
active, then record the source and create the temporary dashed line. -/
def startConnection (st : AppState) (eid : Nat) : AppState :=
  let st1 := if st.connMode then cancelConnection st else st
  { st1 with connMode := true, connSource := some eid, tempLine := true }

/-- The Connection constructor as called by completeConnection.  The source
builds the object from the two live element references; the store lookup of
the model can only miss for a stale (already deleted) endpoint, in which
case the cached anchor points are irrelevant and filled with a dummy
value. -/
def mkConn (st : AppState) (s t : Nat) : Conn :=
  match getElementById st.elements s, getElementById st.elements t with
  | some a, some b => mkConnection st.counter a b
  | _, _ =>
      { id := st.counter, src := s, tgt := t
        sourcePoint := ⟨0, 0, Side.top⟩, targetPoint := ⟨0, 0, Side.top⟩ }

/-- ConnectionManager.completeConnection.  The argument is the target
element reference (none for null).  Guard order follows the source: not in
connection mode or no source resets the temp line only; then the state is
reset; a missing target or the source itself (reference equality, embedded
as id equality) cancels; otherwise the connection is created, pushed onto
both element arrays and the manager list, and returned.  The defensive
check that both elements carry a connections array is always true here. -/
def completeConnection (st : AppState) (target : Option Nat) : Option Conn × AppState :=
  match st.connMode, st.connSource with
  | true, some s =>
      let st1 : AppState :=
        { st with connMode := false, connSource := none, tempLine := false }
      match target with
      | none => (none, st1)
      | some t =>
          if t = s then (none, st1)
          else
            let c := mkConn st1 s t
            (some c,
              { st1 with
                elements := updateElem (updateElem st1.elements s (pushConn c)) t (pushConn c)
                conns := st1.conns ++ [c]
                counter := st1.counter + 1 })
  | _, _ => (none, { st with tempLine := false })

/-- ElementManager.removeElement: remove (a copy of) every connection
touching the element through removeConnection, then delete the element
from the store by id. -/
def applyRemoveElement (st : AppState) (eid : Nat) : AppState :=
  let st1 := (getConnectionsForElement st.conns eid).foldl applyRemoveConnection st
  { st1 with elements := st1.elements.eraseP fun e => decide (e.id = eid) }

/-- InteractionManager.hideAllContextMenus: hide both menus and clear
contextTargetConnection. -/
def hideAllContextMenus (st : AppState) : AppState :=
  { st with elemMenu := none, connMenu := none }

/-- InteractionManager.showElementContextMenu: hide the connection menu and
clear contextTargetConnection first; then the menu is displayed only when
the SVG group of the element is found (the element is in the store) - both
the normal path and the positioning fallback display it. -/
def showElementContextMenu (st : AppState) (eid : Nat) : AppState :=
  let st1 := { st with connMenu := none }
  if (getElementById st1.elements eid).isSome then { st1 with elemMenu := some eid }
  else st1

/-- InteractionManager.showContextMenuForConnection: hide the element menu,
null out selectedElement, record the target connection, display the
connection menu. -/
def showContextMenuForConnection (st : AppState) (c : Conn) : AppState :=
  { st with elemMenu := none, selected := none, connMenu := some c }

/-- InteractionManager.handleSaveName.  Guard: both selectedElement and
currentEditingDiv must be present.  The text is read from the
contenteditable div (the div of the editing element), trimmed; the empty
result falls back to the type of the element being saved
(newName || elementToSave.type); the name is written to selectedElement and
back into the div.  A missing SVG group for the selected element only
detaches the editor (currentEditingDiv = null) without saving.  Finally the
context menu of the saved element is reshown or all menus are hidden,
according to the flag. -/
def handleSaveName (st : AppState) (showMenuAfter : Bool) : AppState :=
  match st.selected, st.editing with
  | some sid, some ed =>
      match getElementById st.elements sid with
      | none => { st with editing := none }
      | some el =>
          let raw := ((getElementById st.elements ed).getD el).divText
          let newName := raw.trim
          let finalName := if newName = "" then typeName el.type else newName
          let st1 : AppState :=
            { st with
              elements := updateElem
                (updateElem st.elements sid fun e => { e with name := finalName }) ed
                (fun e => { e with divText := finalName })
              editing := none }
          if showMenuAfter then showElementContextMenu st1 sid else hideAllContextMenus st1
  | _, _ => st

/-- InteractionManager.cancelInlineEdit.  Guard as for handleSaveName; a
missing SVG group only detaches the editor.  Otherwise the div text is
reset to element.name || element.type (name of the selected element,
written into the div being edited), the editor is deactivated, and the menu
is reshown or all menus hidden per the flag. -/
def cancelInlineEdit (st : AppState) (showMenuAfter : Bool) : AppState :=
  match st.selected, st.editing with
  | some sid, some ed =>
      match getElementById st.elements sid with
      | none => { st with editing := none }
      | some el =>
          let restored := if el.name = "" then typeName el.type else el.name
          let st1 : AppState :=
            { st with
              elements := updateElem st.elements ed fun e => { e with divText := restored }
              editing := none }
          if showMenuAfter then showElementContextMenu st1 sid else hideAllContextMenus st1
  | _, _ => st

/-- InteractionManager.selectElement.  The focusInEditDiv argument is the
oracle for document.activeElement === this.currentEditingDiv at the guard;
the test currentEditingDiv.closest(.element).id === previousSelected.id is
embedded as editing = previous (the editing div belongs to the editing
element).  The final context menu is shown only when the SVG of the newly
selected element exists and that element is not the one being edited. -/
def selectElement (st : AppState) (target : Option Nat) (focusInEditDiv : Bool) : AppState :=
  if st.editing.isSome ∧ target.isSome ∧ st.selected = target ∧ focusInEditDiv then st
  else
    let prev := st.selected
    let st1 :=
      if st.editing.isSome ∧ prev.isSome ∧ prev ≠ target ∧ st.editing = prev then
        handleSaveName st false
      else st
    let st2 := if target ≠ prev then hideAllContextMenus st1 else st1
    let st3 := { st2 with selected := target }
    match target with
    | none => st3
    | some tid =>
        if (getElementById st3.elements tid).isSome then
          if st3.editing ≠ some tid then showElementContextMenu st3 tid else st3
        else st3

/-- InteractionManager.showNameEditor.  Hides all menus; cancels an edit
active on a different element (with the default showMenuAfter = true);
re-entering the edit of the same element is a no-op; otherwise the element
is selected directly (this.selectedElement = element) and, provided its SVG
group and content div are found (the element is in the store), the div
becomes the live editor.  The deferred focus calls have no state in the
model. -/
def showNameEditor (st : AppState) (eid : Nat) : AppState :=
  let st1 := hideAllContextMenus st
  let st2 :=
    if st1.editing.isSome ∧ st1.selected.isSome ∧ st1.selected ≠ some eid then
      cancelInlineEdit st1 true
    else st1
  if st2.editing.isSome ∧ st2.selected.isSome ∧ st2.selected = some eid then st2
  else
    let st3 := if st2.selected ≠ some eid then { st2 with selected := some eid } else st2
    match getElementById st3.elements eid with
    | none => st3
    | some _ => { st3 with editing := some eid }

/-- The timer body of handleCanvasClick for a click on an element
(single-click logic after the double-click window expires).
onContentDiv: the click target was the contenteditable div of the element;
focusInEditDiv: oracle for document.activeElement at the selectElement
guard.  A stale element id (not in the store) is a no-op. -/
def clickElemSingle (st : AppState) (eid : Nat) (onContentDiv focusInEditDiv : Bool) :
    AppState :=
  match getElementById st.elements eid with
  | none => st
  | some _ =>
      if st.connMode then
        let st1 :=
          if st.editing.isSome ∧ st.selected.isSome then handleSaveName st false else st
        (completeConnection st1 (some eid)).2
      else if st.editing.isSome ∧ st.selected = some eid then
        if onContentDiv then st else handleSaveName st true
      else
        let st1 :=
          if st.editing.isSome ∧ st.selected.isSome ∧ st.selected ≠ some eid then
            handleSaveName st false
          else st
        if st1.selected = some eid then selectElement st1 none focusInEditDiv
        else selectElement st1 (some eid) focusInEditDiv

/-- handleCanvasClick for a click on a connection path: save an active edit
without reopening its menu, clear the selection, and open the connection
context menu at the pointer. -/
def clickConn (st : AppState) (cid : Nat) : AppState :=
  match st.conns.find? (fun c => c.id = cid) with
  | none => st
  | some c =>
      let st1 :=
        if st.editing.isSome ∧ st.selected.isSome then handleSaveName st false else st
      let st2 := selectElement st1 none false
      showContextMenuForConnection st2 c

/-- handleCanvasClick for a click on the empty canvas background: save an
active edit without menu, deselect, and cancel a connection draft. -/
def clickEmpty (st : AppState) : AppState :=
  let st1 :=
    if st.editing.isSome ∧ st.selected.isSome then handleSaveName st false else st
  let st2 := selectElement st1 none false
  if st2.connMode then cancelConnection st2 else st2

/-- handleDoubleClick on an element.  targetIsActiveEditDiv: the double
click hit the already-editable content div (native editing proceeds).
Otherwise: hide menus, save an edit on a different element without menu,
and open the name editor. -/
def dblClickElem (st : AppState) (eid : Nat) (targetIsActiveEditDiv : Bool) : AppState :=
  if targetIsActiveEditDiv then st
  else
    match getElementById st.elements eid with
    | none => st
    | some _ =>
        let st1 := hideAllContextMenus st
        let st2 :=
          if st1.editing.isSome ∧ st1.selected.isSome ∧ st1.selected ≠ some eid then
            handleSaveName st1 false
          else st1
        showNameEditor st2 eid

/-- handleDrop: cancel an active edit (default flag: reshow menu), reject an
unknown payload kind, then create the element at the drop point, select it
and open its name editor. -/
def dropStep (st : AppState) (kind : Option ElemType) (x y : ℚ) : AppState :=
  let st1 := if st.editing.isSome then cancelInlineEdit st true else st
  match kind with
  | none => st1
  | some t =>
      let r := createElement st1 t x y ""
      let st3 := selectElement r.2 (some r.1.id) false
      showNameEditor st3 r.1.id

/-- The dragstart handler attached in Element.createSVG: an active edit on
any element (the dragged one or another) is saved without reopening its
menu, all menus are hidden, and the element is marked as dragging. -/
def dragStartStep (st : AppState) (eid : Nat) : AppState :=
  let st1 :=
    if st.editing.isSome ∧ st.selected.isSome ∧ st.selected ≠ some eid then
      handleSaveName st false
    else if st.editing.isSome ∧ st.selected.isSome ∧ st.selected = some eid then
      handleSaveName st false
    else st
  let st2 := hideAllContextMenus st1
  { st2 with dragging := some eid }

/-- The dragmove handler: write the reported box origin into the element and
recompute the anchors of exactly the connections touching it. -/
def dragMoveStep (st : AppState) (eid : Nat) (nx ny : ℚ) : AppState :=
  let st1 := { st with elements := updateElem st.elements eid fun e => { e with x := nx, y := ny } }
  updateConnectionsForElement st1 eid

/-- The dragend handler: final position write and clearing of the dragging
marker. -/
def dragEndStep (st : AppState) (eid : Nat) (nx ny : ℚ) : AppState :=
  { st with
    elements := updateElem st.elements eid fun e => { e with x := nx, y := ny }
    dragging := none }

/-- The ctx-el-delete menu action: cancel an active edit without menu,
deselect, then remove the previously selected element. -/
def menuDeleteStep (st : AppState) : AppState :=
  let st1 :=
    if st.editing.isSome ∧ st.selected.isSome then cancelInlineEdit st false else st
  match st1.selected with
  | none => st1
  | some sid =>
      let st2 := selectElement st1 none false
      applyRemoveElement st2 sid

/-- The ctx-el-connect menu action: save an active edit without menu, start
a connection draft from the selected element, hide all menus. -/
def menuConnectStep (st : AppState) : AppState :=
  let st1 :=
    if st.editing.isSome ∧ st.selected.isSome then handleSaveName st false else st
  let st2 :=
    match st1.selected with
    | some sid => startConnection st1 sid
    | none => st1
  hideAllContextMenus st2

/-- The ctx-el-edit menu action: open the name editor of the selected
element, or just hide the menus when nothing is selected. -/
def menuEditStep (st : AppState) : AppState :=
  match st.selected with
  | some sid => showNameEditor st sid
  | none => hideAllContextMenus st

/-- The ctx-conn-delete menu action: remove the stored target connection if
any, then hide all menus. -/
def menuConnDeleteStep (st : AppState) : AppState :=
  match st.connMenu with
  | some c => hideAllContextMenus (applyRemoveConnection st c)
  | none => hideAllContextMenus st

/-- globalUiActionHandler, shared by the zoom-in, zoom-out and reset-view
buttons and by a palette dragstart: save an active edit without menu and
deselect.  The viewport change itself has no state in the model. -/
def uiActionStep (st : AppState) : AppState :=
  if st.editing.isSome ∧ st.selected.isSome then
    selectElement (handleSaveName st false) none false
  else if st.selected.isSome then selectElement st none false
  else st

/-- handleKeyDown for Delete: ignored while editing; otherwise the selected
element is removed (cascading its connections) and deselected. -/
def keyDeleteStep (st : AppState) : AppState :=
  if st.editing.isSome then st
  else
    match st.selected with
    | some sid => selectElement (applyRemoveElement st sid) none false
    | none => st

/-- handleKeyDown for Escape, reached when the keydown arrives at the
document listener (the target was not the live edit surface, or no editor
key handler consumed it): while editing it cancels only an active
connection draft; otherwise it cancels the draft, or hides the menus and
deselects. -/
def keyEscapeDocStep (st : AppState) : AppState :=
  if st.editing.isSome then
    if st.connMode then cancelConnection st else st
  else if st.connMode then cancelConnection st
  else selectElement (hideAllContextMenus st) none false

/-- handleKeyDown for the space key: ignored while editing, otherwise arms
panning. -/
def keySpaceStep (st : AppState) : AppState :=
  if st.editing.isSome then st else { st with panKey := true }

/-- handleKeyUp for the space key. -/
def keyUpSpaceStep (st : AppState) : AppState :=
  if st.panKey then { st with panKey := false } else st

/-- handleCanvasMouseDown on empty canvas with the pan trigger held. -/
def panStartStep (st : AppState) : AppState :=
  if st.panKey then { st with panning := true } else st

/-- handleCanvasMouseUp while panning. -/
def panEndStep (st : AppState) : AppState :=
  if st.panning then { st with panning := false } else st

/-- handleInlineEditorKeyDown for Enter without shift: save and reshow the
menu.  The listener is attached exactly while an edit is live; the internal
guard of handleSaveName makes the op a no-op otherwise. -/
def editorEnterStep (st : AppState) : AppState :=
  handleSaveName st true

/-- handleInlineEditorKeyDown for Escape: cancel the edit and reshow the
menu (the handler then stops propagation, so the document-level handler
never runs). -/
def editorEscapeStep (st : AppState) : AppState :=
  cancelInlineEdit st true

/-- Native text input into the live edit surface: the content div of the
element being edited takes an arbitrary new text. -/
def typeInEditorStep (st : AppState) (s : String) : AppState :=
  match st.editing with
  | some ed =>
      { st with elements := updateElem st.elements ed fun e => { e with divText := s } }
  | none => st

/-- Classification of the focus target at blur resolution, mirroring the
branches of handleInlineEditorBlur. -/
inductive BlurClass
  | menuBodyControlsPalette
  | sameElement
  | otherElement
  | elsewhereTarget
  | noTargetFocusMoved
  | noTargetNoChange

/-- The deferred body of handleInlineEditorBlur: runs only when the edit
that blurred (div of element d) is still the live one; a focus target in a
menu, the body, a toolbar control or a palette item defers to that
control; the chrome of the same element commits with menu; a different
element or anywhere else commits without menu; no observable focus change
does nothing. -/
def blurResolveStep (st : AppState) (d : Nat) (bc : BlurClass) : AppState :=
  if st.editing = some d then
    match bc with
    | .menuBodyControlsPalette => st
    | .sameElement => handleSaveName st true
    | .otherElement => handleSaveName st false
    | .elsewhereTarget => handleSaveName st false
    | .noTargetFocusMoved => handleSaveName st false
    | .noTargetNoChange => st
  else st

/-- One public operation of the InteractionManager: every event entry point
wired in initEvents and Element.createSVG, with its event data as
parameters.  showContextMenuForConnection runs inside the clickConn step,
at its single call site (after the pending edit is saved). -/
inductive Step : AppState → AppState → Prop
  | clickElem (st : AppState) (eid : Nat) (b f : Bool) :
      Step st (clickElemSingle st eid b f)
  | clickConn (st : AppState) (cid : Nat) : Step st (clickConn st cid)
  | clickEmpty (st : AppState) : Step st (clickEmpty st)
  | dblClick (st : AppState) (eid : Nat) (b : Bool) : Step st (dblClickElem st eid b)
  | drop (st : AppState) (kind : Option ElemType) (x y : ℚ) :
      Step st (dropStep st kind x y)
  | dragStart (st : AppState) (eid : Nat) : Step st (dragStartStep st eid)
  | dragMove (st : AppState) (eid : Nat) (nx ny : ℚ) :
      Step st (dragMoveStep st eid nx ny)
  | dragEnd (st : AppState) (eid : Nat) (nx ny : ℚ) :
      Step st (dragEndStep st eid nx ny)
  | menuDelete (st : AppState) : Step st (menuDeleteStep st)
  | menuConnect (st : AppState) : Step st (menuConnectStep st)
  | menuEdit (st : AppState) : Step st (menuEditStep st)
  | menuConnDelete (st : AppState) : Step st (menuConnDeleteStep st)
  | uiAction (st : AppState) : Step st (uiActionStep st)
  | keyDelete (st : AppState) : Step st (keyDeleteStep st)
  | keyEscapeDoc (st : AppState) : Step st (keyEscapeDocStep st)
  | keySpace (st : AppState) : Step st (keySpaceStep st)
  | keyUpSpace (st : AppState) : Step st (keyUpSpaceStep st)
  | panStart (st : AppState) : Step st (panStartStep st)
  | panEnd (st : AppState) : Step st (panEndStep st)
  | editorEnter (st : AppState) : Step st (editorEnterStep st)
  | editorEscape (st : AppState) : Step st (editorEscapeStep st)
  | typeInEditor (st : AppState) (s : String) : Step st (typeInEditorStep st s)
  | blurResolve (st : AppState) (d : Nat) (bc : BlurClass) :
      Step st (blurResolveStep st d bc)

/-- The states of the running editor: everything the public operations can
produce from the initial state. -/
inductive Reachable : AppState → Prop
  | init : Reachable initState
  | step {s s' : AppState} : Reachable s → Step s s' → Reachable s'

/-- The record-level invariant of the interaction state: an active inline
edit is always an edit of the selected element. -/
def editSelInv (st : AppState) : Prop :=
  ∀ e, st.editing = some e → st.selected = some e

/-- The store-level operation language of claim C10: element creation,
connection creation (startConnection immediately followed by
completeConnection, both endpoints resolved in the current store),
removal of a connection present in the manager list, and element removal
with its cascade. -/
inductive StoreStep : AppState → AppState → Prop
  | createElem (st : AppState) (t : ElemType) (x y : ℚ) (name : String) :
      StoreStep st (createElement st t x y name).2
  | createConn (st : AppState) (s t : Nat)
      (hs : (getElementById st.elements s).isSome)
      (ht : (getElementById st.elements t).isSome) :
      StoreStep st (completeConnection (startConnection st s) (some t)).2
  | removeConn (st : AppState) (c : Conn) (hc : c ∈ st.conns) :
      StoreStep st (applyRemoveConnection st c)
  | removeElem (st : AppState) (eid : Nat) :
      StoreStep st (applyRemoveElement st eid)

/-- States produced from the empty stores by the operations of claim C10. -/
inductive StoreReachable : AppState → Prop
  | init : StoreReachable initState
  | step {s s' : AppState} : StoreReachable s → StoreStep s s' → StoreReachable s'


theorem hideAll_selected (st : AppState) : (hideAllContextMenus st).selected = st.selected := rfl

theorem hideAll_editing (st : AppState) : (hideAllContextMenus st).editing = st.editing := rfl

theorem hideAll_conns (st : AppState) : (hideAllContextMenus st).conns = st.conns := rfl

theorem hideAll_elements (st : AppState) : (hideAllContextMenus st).elements = st.elements := rfl

theorem showMenu_selected (st : AppState) (eid : Nat) :
    (showElementContextMenu st eid).selected = st.selected := by
  simp only [showElementContextMenu]
  split <;> rfl

theorem showMenu_editing (st : AppState) (eid : Nat) :
    (showElementContextMenu st eid).editing = st.editing := by
  simp only [showElementContextMenu]
  split <;> rfl

theorem showMenu_conns (st : AppState) (eid : Nat) :
    (showElementContextMenu st eid).conns = st.conns := by
  simp only [showElementContextMenu]
  split <;> rfl

theorem showMenu_elements (st : AppState) (eid : Nat) :
    (showElementContextMenu st eid).elements = st.elements := by
  simp only [showElementContextMenu]
  split <;> rfl

theorem showMenu_connMode (st : AppState) (eid : Nat) :
    (showElementContextMenu st eid).connMode = st.connMode := by
  simp only [showElementContextMenu]
  split <;> rfl

theorem save_selected (st : AppState) (b : Bool) :
    (handleSaveName st b).selected = st.selected := by
  cases hs : st.selected with
  | none => simp only [handleSaveName, hs]
  | some sid =>
    cases he : st.editing with
    | none => simp only [handleSaveName, hs, he]
    | some ed =>
      cases hg : getElementById st.elements sid with
      | none => simp only [handleSaveName, hs, he, hg]
      | some el =>
        simp only [handleSaveName, hs, he, hg]
        split
        · rw [showMenu_selected]
        · rw [hideAll_selected]

theorem save_noop_of_no_edit (st : AppState) (b : Bool) (h : st.editing = none) :
    handleSaveName st b = st := by
  cases hs : st.selected with
  | none => simp only [handleSaveName, hs]
  | some sid => simp only [handleSaveName, hs, h]

theorem save_noop_of_no_sel (st : AppState) (b : Bool) (h : st.selected = none) :
    handleSaveName st b = st := by
  simp only [handleSaveName, h]

theorem save_editing_none (st : AppState) (b : Bool) (h1 : st.selected.isSome)
    (h2 : st.editing.isSome) : (handleSaveName st b).editing = none := by
  cases hs : st.selected with
  | none => rw [hs] at h1; simp at h1
  | some sid =>
    cases he : st.editing with
    | none => rw [he] at h2; simp at h2
    | some ed =>
      cases hg : getElementById st.elements sid with
      | none => simp only [handleSaveName, hs, he, hg]
      | some el =>
        simp only [handleSaveName, hs, he, hg]
        split
        · rw [showMenu_editing]
        · rw [hideAll_editing]

theorem save_conns (st : AppState) (b : Bool) :
    (handleSaveName st b).conns = st.conns := by
  cases hs : st.selected with
  | none => simp only [handleSaveName, hs]
  | some sid =>
    cases he : st.editing with
    | none => simp only [handleSaveName, hs, he]
    | some ed =>
      cases hg : getElementById st.elements sid with
      | none => simp only [handleSaveName, hs, he, hg]
      | some el =>
        simp only [handleSaveName, hs, he, hg]
        split
        · rw [showMenu_conns]
        · rw [hideAll_conns]

theorem save_connMode (st : AppState) (b : Bool) :
    (handleSaveName st b).connMode = st.connMode := by
  cases hs : st.selected with
  | none => simp only [handleSaveName, hs]
  | some sid =>
    cases he : st.editing with
    | none => simp only [handleSaveName, hs, he]
    | some ed =>
      cases hg : getElementById st.elements sid with
      | none => simp only [handleSaveName, hs, he, hg]
      | some el =>
        simp only [handleSaveName, hs, he, hg]
        split
        · rw [showMenu_connMode]
        · rfl

theorem cancel_selected (st : AppState) (b : Bool) :
    (cancelInlineEdit st b).selected = st.selected := by
  cases hs : st.selected with
  | none => simp only [cancelInlineEdit, hs]
  | some sid =>
    cases he : st.editing with
    | none => simp only [cancelInlineEdit, hs, he]
    | some ed =>
      cases hg : getElementById st.elements sid with
      | none => simp only [cancelInlineEdit, hs, he, hg]
      | some el =>
        simp only [cancelInlineEdit, hs, he, hg]
        split
        · rw [showMenu_selected]
        · rw [hideAll_selected]

theorem cancel_noop_of_no_edit (st : AppState) (b : Bool) (h : st.editing = none) :
    cancelInlineEdit st b = st := by
  cases hs : st.selected with
  | none => simp only [cancelInlineEdit, hs]
  | some sid => simp only [cancelInlineEdit, hs, h]

theorem cancel_editing_none (st : AppState) (b : Bool) (h1 : st.selected.isSome)
    (h2 : st.editing.isSome) : (cancelInlineEdit st b).editing = none := by
  cases hs : st.selected with
  | none => rw [hs] at h1; simp at h1
  | some sid =>
    cases he : st.editing with
    | none => rw [he] at h2; simp at h2
    | some ed =>
      cases hg : getElementById st.elements sid with
      | none => simp only [cancelInlineEdit, hs, he, hg]
      | some el =>
        simp only [cancelInlineEdit, hs, he, hg]
        split
        · rw [showMenu_editing]
        · rw [hideAll_editing]

theorem cancel_conns (st : AppState) (b : Bool) :
    (cancelInlineEdit st b).conns = st.conns := by
  cases hs : st.selected with
  | none => simp only [cancelInlineEdit, hs]
  | some sid =>
    cases he : st.editing with
    | none => simp only [cancelInlineEdit, hs, he]
    | some ed =>
      cases hg : getElementById st.elements sid with
      | none => simp only [cancelInlineEdit, hs, he, hg]
      | some el =>
        simp only [cancelInlineEdit, hs, he, hg]
        split
        · rw [showMenu_conns]
        · rw [hideAll_conns]

theorem cancel_connMode (st : AppState) (b : Bool) :
    (cancelInlineEdit st b).connMode = st.connMode := by
  cases hs : st.selected with
  | none => simp only [cancelInlineEdit, hs]
  | some sid =>
    cases he : st.editing with
    | none => simp only [cancelInlineEdit, hs, he]
    | some ed =>
      cases hg : getElementById st.elements sid with
      | none => simp only [cancelInlineEdit, hs, he, hg]
      | some el =>
        simp only [cancelInlineEdit, hs, he, hg]
        split
        · rw [showMenu_connMode]
        · rfl

theorem inv_save (st : AppState) (b : Bool) (h : editSelInv st) :
    editSelInv (handleSaveName st b) := by
  intro e he
  cases hed : st.editing with
  | none => rw [save_noop_of_no_edit st b hed] at he ⊢; exact h e he
  | some ed =>
    have hsel : st.selected = some ed := h ed hed
    have hz : (handleSaveName st b).editing = none :=
      save_editing_none st b (by rw [hsel]; rfl) (by rw [hed]; rfl)
    rw [hz] at he
    cases he

theorem inv_cancel (st : AppState) (b : Bool) (h : editSelInv st) :
    editSelInv (cancelInlineEdit st b) := by
  intro e he
  cases hed : st.editing with
  | none => rw [cancel_noop_of_no_edit st b hed] at he ⊢; exact h e he
  | some ed =>
    have hsel : st.selected = some ed := h ed hed
    have hz : (cancelInlineEdit st b).editing = none :=
      cancel_editing_none st b (by rw [hsel]; rfl) (by rw [hed]; rfl)
    rw [hz] at he
    cases he


theorem selectNone_selected (st : AppState) (f : Bool) (h : editSelInv st) :
    (selectElement st none f).selected = none := by
  cases hed : st.editing with
  | none =>
    simp only [selectElement, hed, Option.isSome_none, Bool.false_eq_true, false_and,
      and_false, if_false, ne_eq]
  | some ed =>
    have hsel : st.selected = some ed := h ed hed
    simp only [selectElement, hed, hsel, Option.isSome_none, Bool.false_eq_true, false_and,
      and_false, if_false, Option.isSome_some, true_and, and_true, ne_eq]

theorem selectNone_editing (st : AppState) (f : Bool) (h : editSelInv st) :
    (selectElement st none f).editing = none := by
  cases hed : st.editing with
  | none =>
    simp only [selectElement, hed, Option.isSome_none, Bool.false_eq_true, false_and,
      and_false, if_false, ne_eq]
    repeat' split
    all_goals first
      | exact hed
      | (rw [hideAll_editing]; exact hed)
  | some ed =>
    have hsel : st.selected = some ed := h ed hed
    have hz : (handleSaveName st false).editing = none :=
      save_editing_none st false (by rw [hsel]; rfl) (by rw [hed]; rfl)
    simp only [selectElement, hed, hsel, Option.isSome_none, Bool.false_eq_true, false_and,
      and_false, if_false, Option.isSome_some, true_and, and_true, ne_eq]
    repeat' split
    all_goals first
      | exact hed
      | exact hz
      | (rw [hideAll_editing]; exact hed)
      | (rw [hideAll_editing]; exact hz)
      | simp_all

theorem inv_selectElement (st : AppState) (t : Option Nat) (f : Bool) (h : editSelInv st) :
    editSelInv (selectElement st t f) := by
  cases t with
  | none =>
    intro e he
    rw [selectNone_editing st f h] at he
    cases he
  | some tid =>
    cases hed : st.editing with
    | none =>
      have hz : (selectElement st (some tid) f).editing = none := by
        simp only [selectElement, hed, Option.isSome_none, Bool.false_eq_true, false_and,
          if_false, ne_eq, Option.isSome_some, true_and]
        repeat' split
        all_goals first
          | exact hed
          | (rw [showMenu_editing]; exact hed)
          | (rw [showMenu_editing, hideAll_editing]; exact hed)
          | (rw [hideAll_editing]; exact hed)
          | rfl
          | simp_all
      intro e he
      rw [hz] at he
      cases he
    | some ed =>
      have hsel : st.selected = some ed := h ed hed
      by_cases htid : tid = ed
      · subst htid
        by_cases hf : f
        · have hguard : st.editing.isSome ∧ (some tid : Option Nat).isSome ∧
              st.selected = some tid ∧ f = true := by
            refine ⟨by rw [hed]; rfl, rfl, hsel, by rw [hf]⟩
          rw [selectElement, if_pos hguard]
          exact h
        · have hA : (selectElement st (some tid) f).selected = some tid := by
            simp only [selectElement, hed, hsel, Option.isSome_some, true_and, ne_eq,
              not_true_eq_false, false_and, and_false, if_false]
            repeat' split
            all_goals first
              | rfl
              | (rw [showMenu_selected]; rfl)
              | simp_all
          have hB : (selectElement st (some tid) f).editing = some tid := by
            simp only [selectElement, hed, hsel, Option.isSome_some, true_and, ne_eq,
              not_true_eq_false, false_and, and_false, if_false]
            repeat' split
            all_goals first
              | exact hed
              | (rw [showMenu_editing]; exact hed)
              | simp_all
          intro e he
          rw [hB] at he
          rw [hA]
          exact he
      · have hz : (selectElement st (some tid) f).editing = none := by
          have hsave : (handleSaveName st false).editing = none :=
            save_editing_none st false (by rw [hsel]; rfl) (by rw [hed]; rfl)
          simp only [selectElement, hed, hsel, Option.isSome_some, true_and, ne_eq]
          repeat' split
          all_goals first
            | exact hed
            | exact hsave
            | (rw [showMenu_editing]; exact hsave)
            | (rw [showMenu_editing, hideAll_editing]; exact hsave)
            | (rw [hideAll_editing]; exact hsave)
            | (rw [showMenu_editing]; exact hed)
            | (rw [showMenu_editing, hideAll_editing]; exact hed)
            | (rw [hideAll_editing]; exact hed)
            | simp_all
        intro e he
        rw [hz] at he
        cases he

theorem showNE_shape (st : AppState) (eid : Nat) (h : editSelInv st) :
    showNameEditor st eid = hideAllContextMenus st ∨
    (showNameEditor st eid).editing = none ∨
    ((showNameEditor st eid).editing = some eid ∧
      (showNameEditor st eid).selected = some eid) := by
  cases hed : st.editing with
  | none =>
    simp only [showNameEditor, hideAll_editing, hideAll_selected, hed, Option.isSome_none,
      Bool.false_eq_true, false_and, if_false, ne_eq]
    repeat' split
    all_goals simp_all [hideAllContextMenus]
  | some ed =>
    have hsel : st.selected = some ed := h ed hed
    by_cases heq : ed = eid
    · subst heq
      left
      simp only [showNameEditor, hideAll_editing, hideAll_selected, hed, hsel,
        Option.isSome_some, true_and, ne_eq, not_true_eq_false, and_false, if_false]
      repeat' split
      all_goals simp_all [hideAllContextMenus]
    · have hc : (cancelInlineEdit (hideAllContextMenus st) true).editing = none := by
        apply cancel_editing_none
        · rw [hideAll_selected, hsel]; rfl
        · rw [hideAll_editing, hed]; rfl
      have hcs : (cancelInlineEdit (hideAllContextMenus st) true).selected = some ed := by
        rw [cancel_selected, hideAll_selected, hsel]
      simp only [showNameEditor, hideAll_editing, hideAll_selected, hed, hsel,
        Option.isSome_some, true_and, ne_eq]
      repeat' split
      all_goals simp_all [hideAllContextMenus]

theorem inv_showNameEditor (st : AppState) (eid : Nat) (h : editSelInv st) :
    editSelInv (showNameEditor st eid) := by
  rcases showNE_shape st eid h with hs | hs | ⟨h1, h2⟩
  · intro e he
    rw [hs] at he ⊢
    rw [hideAll_editing] at he
    rw [hideAll_selected]
    exact h e he
  · intro e he
    rw [hs] at he
    cases he
  · intro e he
    rw [h1] at he
    cases he
    rw [h2]

theorem showConnMenu_selected (st : AppState) (c : Conn) :
    (showContextMenuForConnection st c).selected = none := rfl

theorem showConnMenu_editing (st : AppState) (c : Conn) :
    (showContextMenuForConnection st c).editing = st.editing := rfl

theorem cancelConnection_selected (st : AppState) :
    (cancelConnection st).selected = st.selected := by
  unfold cancelConnection
  split <;> rfl

theorem cancelConnection_editing (st : AppState) :
    (cancelConnection st).editing = st.editing := by
  unfold cancelConnection
  split <;> rfl

theorem cancelConnection_elements (st : AppState) :
    (cancelConnection st).elements = st.elements := by
  unfold cancelConnection
  split <;> rfl

theorem cancelConnection_conns (st : AppState) :
    (cancelConnection st).conns = st.conns := by
  unfold cancelConnection
  split <;> rfl

theorem startConnection_selected (st : AppState) (eid : Nat) :
    (startConnection st eid).selected = st.selected := by
  unfold startConnection
  split
  · rw [show (cancelConnection st).selected = st.selected from cancelConnection_selected st]
  · rfl

theorem startConnection_editing (st : AppState) (eid : Nat) :
    (startConnection st eid).editing = st.editing := by
  unfold startConnection
  split
  · rw [show (cancelConnection st).editing = st.editing from cancelConnection_editing st]
  · rfl

theorem completeConnection_selected (st : AppState) (t : Option Nat) :
    (completeConnection st t).2.selected = st.selected := by
  unfold completeConnection
  split
  · dsimp only
    split
    · rfl
    · split <;> rfl
  · rfl

theorem completeConnection_editing (st : AppState) (t : Option Nat) :
    (completeConnection st t).2.editing = st.editing := by
  unfold completeConnection
  split
  · dsimp only
    split
    · rfl
    · split <;> rfl
  · rfl

theorem createElement_selected (st : AppState) (t : ElemType) (x y : ℚ) (n : String) :
    (createElement st t x y n).2.selected = st.selected := rfl

theorem createElement_editing (st : AppState) (t : ElemType) (x y : ℚ) (n : String) :
    (createElement st t x y n).2.editing = st.editing := rfl

theorem removeConnection_selected (st : AppState) (c : Conn) :
    (applyRemoveConnection st c).selected = st.selected := rfl

theorem removeConnection_editing (st : AppState) (c : Conn) :
    (applyRemoveConnection st c).editing = st.editing := rfl

theorem foldlRC_selected (L : List Conn) (st : AppState) :
    (L.foldl applyRemoveConnection st).selected = st.selected := by
  induction L generalizing st with
  | nil => rfl
  | cons c L ih => rw [List.foldl_cons, ih, removeConnection_selected]

theorem foldlRC_editing (L : List Conn) (st : AppState) :
    (L.foldl applyRemoveConnection st).editing = st.editing := by
  induction L generalizing st with
  | nil => rfl
  | cons c L ih => rw [List.foldl_cons, ih, removeConnection_editing]

theorem removeElement_selected (st : AppState) (eid : Nat) :
    (applyRemoveElement st eid).selected = st.selected := by
  unfold applyRemoveElement
  exact foldlRC_selected _ st

theorem removeElement_editing (st : AppState) (eid : Nat) :
    (applyRemoveElement st eid).editing = st.editing := by
  unfold applyRemoveElement
  exact foldlRC_editing _ st

theorem inv_clickElemSingle (st : AppState) (eid : Nat) (b f : Bool) (h : editSelInv st) :
    editSelInv (clickElemSingle st eid b f) := by
  unfold clickElemSingle
  cases getElementById st.elements eid with
  | none => exact h
  | some el =>
    dsimp only
    split
    · by_cases hC : st.editing.isSome = true ∧ st.selected.isSome = true
      · rw [if_pos hC]
        intro e he
        rw [completeConnection_editing] at he
        rw [save_editing_none st false hC.2 hC.1] at he
        cases he
      · rw [if_neg hC]
        intro e he
        rw [completeConnection_editing] at he
        rw [completeConnection_selected]
        exact h e he
    · split
      · split
        · exact h
        · exact inv_save st true h
      · split
        · split
          · exact inv_selectElement _ none f (inv_save st false h)
          · exact inv_selectElement _ (some eid) f (inv_save st false h)
        · split
          · exact inv_selectElement _ none f h
          · exact inv_selectElement _ (some eid) f h

theorem inv_clickConn (st : AppState) (cid : Nat) (h : editSelInv st) :
    editSelInv (clickConn st cid) := by
  unfold clickConn
  cases st.conns.find? (fun c => c.id = cid) with
  | none => exact h
  | some c =>
    dsimp only
    intro e he
    rw [showConnMenu_editing, selectNone_editing] at he
    · cases he
    · split
      · exact inv_save st false h
      · exact h

theorem inv_clickEmpty (st : AppState) (h : editSelInv st) :
    editSelInv (clickEmpty st) := by
  unfold clickEmpty
  dsimp only
  have key : ∀ s : AppState, editSelInv s →
      editSelInv (if s.connMode = true then cancelConnection s else s) := by
    intro s hs
    split
    · intro e he
      rw [cancelConnection_editing] at he
      rw [cancelConnection_selected]
      exact hs e he
    · exact hs
  apply key
  apply inv_selectElement
  split
  · exact inv_save st false h
  · exact h

theorem inv_dblClickElem (st : AppState) (eid : Nat) (b : Bool) (h : editSelInv st) :
    editSelInv (dblClickElem st eid b) := by
  unfold dblClickElem
  split
  · exact h
  · cases getElementById st.elements eid with
    | none => exact h
    | some el =>
      dsimp only
      apply inv_showNameEditor
      split
      · apply inv_save
        intro e he
        rw [hideAll_editing] at he
        rw [hideAll_selected]
        exact h e he
      · intro e he
        rw [hideAll_editing] at he
        rw [hideAll_selected]
        exact h e he

theorem inv_dropStep (st : AppState) (kind : Option ElemType) (x y : ℚ) (h : editSelInv st) :
    editSelInv (dropStep st kind x y) := by
  unfold dropStep
  have h1 : editSelInv (if st.editing.isSome = true then cancelInlineEdit st true else st) := by
    split
    · exact inv_cancel st true h
    · exact h
  cases kind with
  | none => exact h1
  | some t =>
    dsimp only
    apply inv_showNameEditor
    apply inv_selectElement
    intro e he
    rw [createElement_editing] at he
    rw [createElement_selected]
    exact h1 e he

theorem inv_dragStartStep (st : AppState) (eid : Nat) (h : editSelInv st) :
    editSelInv (dragStartStep st eid) := by
  unfold dragStartStep
  have h1 : editSelInv
      (if st.editing.isSome = true ∧ st.selected.isSome = true ∧ st.selected ≠ some eid then
        handleSaveName st false
      else if st.editing.isSome = true ∧ st.selected.isSome = true ∧ st.selected = some eid then
        handleSaveName st false
      else st) := by
    split
    · exact inv_save st false h
    · split
      · exact inv_save st false h
      · exact h
  intro e he
  exact h1 e he

theorem inv_dragMoveStep (st : AppState) (eid : Nat) (nx ny : ℚ) (h : editSelInv st) :
    editSelInv (dragMoveStep st eid nx ny) := by
  intro e he
  exact h e he

theorem inv_dragEndStep (st : AppState) (eid : Nat) (nx ny : ℚ) (h : editSelInv st) :
    editSelInv (dragEndStep st eid nx ny) := by
  intro e he
  exact h e he

theorem inv_menuDeleteStep (st : AppState) (h : editSelInv st) :
    editSelInv (menuDeleteStep st) := by
  unfold menuDeleteStep
  have h1 : editSelInv (if st.editing.isSome = true ∧ st.selected.isSome = true then
      cancelInlineEdit st false else st) := by
    split
    · exact inv_cancel st false h
    · exact h
  cases hsel : (if st.editing.isSome = true ∧ st.selected.isSome = true then
      cancelInlineEdit st false else st).selected with
  | none => simp only [hsel]; exact h1
  | some sid =>
    simp only [hsel]
    intro e he
    rw [removeElement_editing, selectNone_editing _ _ h1] at he
    cases he

theorem inv_menuConnectStep (st : AppState) (h : editSelInv st) :
    editSelInv (menuConnectStep st) := by
  unfold menuConnectStep
  have h1 : editSelInv (if st.editing.isSome = true ∧ st.selected.isSome = true then
      handleSaveName st false else st) := by
    split
    · exact inv_save st false h
    · exact h
  intro e he
  rw [hideAll_editing] at he
  rw [hideAll_selected]
  revert he
  cases hs : (if st.editing.isSome = true ∧ st.selected.isSome = true then
      handleSaveName st false else st).selected with
  | none => exact fun he => h1 e he
  | some sid =>
    dsimp only
    intro he
    rw [startConnection_editing] at he
    rw [startConnection_selected]
    exact h1 e he

theorem inv_menuEditStep (st : AppState) (h : editSelInv st) :
    editSelInv (menuEditStep st) := by
  unfold menuEditStep
  cases st.selected with
  | none =>
    intro e he
    rw [hideAll_editing] at he
    rw [hideAll_selected]
    exact h e he
  | some sid => exact inv_showNameEditor st sid h

theorem inv_menuConnDeleteStep (st : AppState) (h : editSelInv st) :
    editSelInv (menuConnDeleteStep st) := by
  unfold menuConnDeleteStep
  cases st.connMenu with
  | none =>
    intro e he
    rw [hideAll_editing] at he
    rw [hideAll_selected]
    exact h e he
  | some c =>
    intro e he
    rw [hideAll_editing, removeConnection_editing] at he
    rw [hideAll_selected, removeConnection_selected]
    exact h e he

theorem inv_uiActionStep (st : AppState) (h : editSelInv st) :
    editSelInv (uiActionStep st) := by
  unfold uiActionStep
  split
  · exact inv_selectElement _ none false (inv_save st false h)
  · split
    · exact inv_selectElement _ none false h
    · exact h

theorem inv_keyDeleteStep (st : AppState) (h : editSelInv st) :
    editSelInv (keyDeleteStep st) := by
  unfold keyDeleteStep
  split
  · exact h
  · cases st.selected with
    | none => exact h
    | some sid =>
      dsimp only
      apply inv_selectElement
      intro e he
      rw [removeElement_editing] at he
      rw [removeElement_selected]
      exact h e he

theorem inv_keyEscapeDocStep (st : AppState) (h : editSelInv st) :
    editSelInv (keyEscapeDocStep st) := by
  unfold keyEscapeDocStep
  have key : ∀ s : AppState, editSelInv s → editSelInv (cancelConnection s) := by
    intro s hs e he
    rw [cancelConnection_editing] at he
    rw [cancelConnection_selected]
    exact hs e he
  split
  · split
    · exact key st h
    · exact h
  · split
    · exact key st h
    · apply inv_selectElement
      intro e he
      rw [hideAll_editing] at he
      rw [hideAll_selected]
      exact h e he

theorem inv_keySpaceStep (st : AppState) (h : editSelInv st) :
    editSelInv (keySpaceStep st) := by
  unfold keySpaceStep
  split
  · exact h
  · intro e he
    exact h e he

theorem inv_keyUpSpaceStep (st : AppState) (h : editSelInv st) :
    editSelInv (keyUpSpaceStep st) := by
  unfold keyUpSpaceStep
  split
  · intro e he
    exact h e he
  · exact h

theorem inv_panStartStep (st : AppState) (h : editSelInv st) :
    editSelInv (panStartStep st) := by
  unfold panStartStep
  split
  · intro e he
    exact h e he
  · exact h

theorem inv_panEndStep (st : AppState) (h : editSelInv st) :
    editSelInv (panEndStep st) := by
  unfold panEndStep
  split
  · intro e he
    exact h e he
  · exact h

theorem inv_typeInEditorStep (st : AppState) (sNew : String) (h : editSelInv st) :
    editSelInv (typeInEditorStep st sNew) := by
  unfold typeInEditorStep
  cases hed : st.editing with
  | none => exact h
  | some ed =>
    intro e he
    dsimp only at he
    cases he
    exact h ed hed

theorem inv_blurResolveStep (st : AppState) (d : Nat) (bc : BlurClass) (h : editSelInv st) :
    editSelInv (blurResolveStep st d bc) := by
  unfold blurResolveStep
  split
  · cases bc
    · exact h
    · exact inv_save st true h
    · exact inv_save st false h
    · exact inv_save st false h
    · exact inv_save st false h
    · exact h
  · exact h

theorem step_inv {s s' : AppState} (hs : Step s s') (h : editSelInv s) : editSelInv s' := by
  cases hs with
  | clickElem eid b f => exact inv_clickElemSingle s eid b f h
  | clickConn cid => exact inv_clickConn s cid h
  | clickEmpty => exact inv_clickEmpty s h
  | dblClick eid b => exact inv_dblClickElem s eid b h
  | drop kind x y => exact inv_dropStep s kind x y h
  | dragStart eid => exact inv_dragStartStep s eid h
  | dragMove eid nx ny => exact inv_dragMoveStep s eid nx ny h
  | dragEnd eid nx ny => exact inv_dragEndStep s eid nx ny h
  | menuDelete => exact inv_menuDeleteStep s h
  | menuConnect => exact inv_menuConnectStep s h
  | menuEdit => exact inv_menuEditStep s h
  | menuConnDelete => exact inv_menuConnDeleteStep s h
  | uiAction => exact inv_uiActionStep s h
  | keyDelete => exact inv_keyDeleteStep s h
  | keyEscapeDoc => exact inv_keyEscapeDocStep s h
  | keySpace => exact inv_keySpaceStep s h
  | keyUpSpace => exact inv_keyUpSpaceStep s h
  | panStart => exact inv_panStartStep s h
  | panEnd => exact inv_panEndStep s h
  | editorEnter => exact inv_save s true h
  | editorEscape => exact inv_cancel s true h
  | typeInEditor sNew => exact inv_typeInEditorStep s sNew h
  | blurResolve d bc => exact inv_blurResolveStep s d bc h

/-- Claim C1: for every reachable state of the InteractionManager, an active
inline edit (editing present) implies that the selected element is the one
being edited, and every public operation (click, double click, drop, drag
start, the menu actions, blur resolution, and the click-on-connection path
through showContextMenuForConnection) preserves this invariant: the
invariant holds in every state the operations can reach. -/
theorem spec_C1 (st : AppState) (h : Reachable st) : editSelInv st := by
  induction h with
  | init => intro e he; cases he
  | step hr hs ih => exact step_inv hs ih

/-- Witness for C1 at a concrete reachable state: dropping a command shape
on the empty canvas yields a state (selected and editing both the new
element) that is reachable and satisfies the invariant. -/
theorem spec_C1_witness :
    Reachable (dropStep initState (some ElemType.command) 10 10) ∧
      editSelInv (dropStep initState (some ElemType.command) 10 10) :=
  ⟨Reachable.step Reachable.init (Step.drop initState (some ElemType.command) 10 10),
    spec_C1 _ (Reachable.step Reachable.init (Step.drop initState (some ElemType.command) 10 10))⟩

theorem any_filter_of_imp {α : Type} (l : List α) (p f : α → Bool)
    (h : ∀ a, f a = true → p a = true) : l.any f = (l.filter p).any f := by
  induction l with
  | nil => rfl
  | cons a l ih =>
    by_cases hp : p a = true
    · rw [List.filter_cons_of_pos hp, List.any_cons, List.any_cons, ih]
    · rw [List.filter_cons_of_neg hp, List.any_cons]
      have hf : f a = false := by
        cases hfa : f a
        · rfl
        · exact absurd (h a hfa) hp
      rw [hf, Bool.false_or, ih]

theorem hasCollision_filter_slices (es : List ElementR) (e : ElementR) :
    hasCollision es e =
      hasCollision (es.filter fun o => decide (o.type ≠ ElemType.slice)) e := by
  unfold hasCollision
  split
  · rfl
  · exact any_filter_of_imp es _ _ fun a ha => by
      rcases Bool.and_eq_true_iff.mp ha with ⟨h1, -⟩
      exact (Bool.and_eq_true_iff.mp h1).2

/-- Claim C7: a pair of elements with at least one Slice never overlaps;
hasCollision is never true for a Slice element; and Slice elements in the
store never block any element - collision testing and the whole placement
loop are unchanged when every Slice is removed from the store. -/
theorem spec_C7 :
    (∀ a b : ElementR, a.type = ElemType.slice ∨ b.type = ElemType.slice →
        overlaps a b = false) ∧
    (∀ (es : List ElementR) (e : ElementR), e.type = ElemType.slice →
        hasCollision es e = false) ∧
    (∀ (es : List ElementR) (e : ElementR),
        hasCollision es e =
          hasCollision (es.filter fun o => decide (o.type ≠ ElemType.slice)) e) ∧
    (∀ (es : List ElementR) (e : ElementR) (n : Nat),
        placeAttempts es e n =
          placeAttempts (es.filter fun o => decide (o.type ≠ ElemType.slice)) e n) := by
  refine ⟨?_, ?_, hasCollision_filter_slices, ?_⟩
  · intro a b h
    unfold overlaps
    rw [if_pos h]
  · intro es e h
    unfold hasCollision
    rw [if_pos h]
  · intro es e n
    induction n generalizing e with
    | zero => rfl
    | succ n ih =>
      unfold placeAttempts
      rw [← hasCollision_filter_slices]
      split
      · exact ih (offsetElem e)
      · rfl

/-- Witness for C7 at concrete inputs: a Slice overlapping a Command
reports no overlap and no collision. -/
theorem spec_C7_witness :
    (overlaps (mkElement 1 ElemType.slice 0 0 "") (mkElement 2 ElemType.command 0 0 "") =
        false) ∧
      hasCollision [mkElement 2 ElemType.command 0 0 ""]
          (mkElement 1 ElemType.slice 0 0 "") = false :=
  ⟨spec_C7.1 _ _ (Or.inl rfl), spec_C7.2.1 _ _ rfl⟩

theorem offsetIter_x (e : ElementR) (k : Nat) :
    ((offsetElem^[k]) e).x = e.x + 20 * k := by
  induction k with
  | zero => simp
  | succ k ih =>
    rw [Function.iterate_succ_apply', offsetElem, ih]
    push_cast
    ring

theorem offsetIter_y (e : ElementR) (k : Nat) :
    ((offsetElem^[k]) e).y = e.y + 20 * k := by
  induction k with
  | zero => simp
  | succ k ih =>
    rw [Function.iterate_succ_apply', offsetElem, ih]
    push_cast
    ring

theorem place_spec (es : List ElementR) : ∀ (n : Nat) (e : ElementR),
    ∃ k ≤ n, placeAttempts es e n = (offsetElem^[k]) e ∧
      (∀ j < k, hasCollision es ((offsetElem^[j]) e) = true) ∧
      (k < n → hasCollision es ((offsetElem^[k]) e) = false) := by
  intro n
  induction n with
  | zero =>
    intro e
    exact ⟨0, Nat.le_refl 0, rfl, fun j hj => absurd hj (Nat.not_lt_zero j),
      fun h => absurd h (Nat.lt_irrefl 0)⟩
  | succ n ih =>
    intro e
    unfold placeAttempts
    cases hcol : hasCollision es e with
    | false =>
      rw [if_neg Bool.false_ne_true]
      exact ⟨0, Nat.zero_le _, rfl, fun j hj => absurd hj (Nat.not_lt_zero j), fun _ => hcol⟩
    | true =>
      rw [if_pos rfl]
      obtain ⟨k, hkn, heq, hall, hlast⟩ := ih (offsetElem e)
      refine ⟨k + 1, Nat.succ_le_succ hkn, ?_, ?_, ?_⟩
      · rw [heq, Function.iterate_succ_apply]
      · intro j hj
        cases j with
        | zero => exact hcol
        | succ j =>
          rw [Function.iterate_succ_apply]
          exact hall j (Nat.lt_of_succ_lt_succ hj)
      · intro hk
        rw [Function.iterate_succ_apply]
        exact hlast (Nat.lt_of_succ_lt_succ hk)

/-- Claim C6: createElement always appends exactly one element to the store
(never fails or blocks); its position is the requested one offset k times by
(+20, +20) for some k at most 5, where every earlier offset position
collided and, when fewer than 5 offsets were used, the final position is
collision free - if a collision remains after the last attempt the element
is placed anyway at the last tried position. -/
theorem spec_C6 (st : AppState) (t : ElemType) (x y : ℚ) (name : String) :
    (createElement st t x y name).2.elements =
      st.elements ++ [(createElement st t x y name).1] ∧
    ∃ k ≤ 5,
      (createElement st t x y name).1 =
        (offsetElem^[k]) (mkElement st.counter t x y name) ∧
      (createElement st t x y name).1.x = x + 20 * k ∧
      (createElement st t x y name).1.y = y + 20 * k ∧
      (∀ j < k,
        hasCollision st.elements ((offsetElem^[j]) (mkElement st.counter t x y name)) =
          true) ∧
      (k < 5 →
        hasCollision st.elements ((offsetElem^[k]) (mkElement st.counter t x y name)) =
          false) := by
  refine ⟨rfl, ?_⟩
  obtain ⟨k, hk5, heq, hall, hlast⟩ := place_spec st.elements 5 (mkElement st.counter t x y name)
  refine ⟨k, hk5, heq, ?_, ?_, hall, hlast⟩
  · show (placeAttempts st.elements (mkElement st.counter t x y name) 5).x = x + 20 * k
    rw [heq, offsetIter_x]
    rfl
  · show (placeAttempts st.elements (mkElement st.counter t x y name) 5).y = y + 20 * k
    rw [heq, offsetIter_y]
    rfl

/-- Witness for C6 at a concrete input: dropping a command exactly on top of
an existing command places the new element offset by one (+20, +20) step and
still adds it to the store. -/
theorem spec_C6_witness :
    ((createElement (createElement initState ElemType.command 0 0 "").2 ElemType.command 0 0
          "").2.elements =
        (createElement initState ElemType.command 0 0 "").2.elements ++
          [(createElement (createElement initState ElemType.command 0 0 "").2 ElemType.command
              0 0 "").1]) ∧
      ∃ k ≤ 5,
        (createElement (createElement initState ElemType.command 0 0 "").2 ElemType.command 0 0
            "").1 =
          (offsetElem^[k])
            (mkElement (createElement initState ElemType.command 0 0 "").2.counter
              ElemType.command 0 0 "") ∧
        (createElement (createElement initState ElemType.command 0 0 "").2 ElemType.command 0 0
              "").1.x =
            0 + 20 * k ∧
        (createElement (createElement initState ElemType.command 0 0 "").2 ElemType.command 0 0
              "").1.y =
            0 + 20 * k ∧
        (∀ j < k,
          hasCollision (createElement initState ElemType.command 0 0 "").2.elements
              ((offsetElem^[j])
                (mkElement (createElement initState ElemType.command 0 0 "").2.counter
                  ElemType.command 0 0 "")) =
            true) ∧
        (k < 5 →
          hasCollision (createElement initState ElemType.command 0 0 "").2.elements
              ((offsetElem^[k])
                (mkElement (createElement initState ElemType.command 0 0 "").2.counter
                  ElemType.command 0 0 "")) =
            false) :=
  spec_C6 (createElement initState ElemType.command 0 0 "").2 ElemType.command 0 0 ""

theorem getElementById_updateElem (es : List ElementR) (i : Nat) (f : ElementR → ElementR)
    (hf : ∀ e, (f e).id = e.id) :
    getElementById (updateElem es i f) i = (getElementById es i).map f := by
  induction es with
  | nil => rfl
  | cons e es ih =>
    by_cases he : e.id = i
    · simp [getElementById, updateElem, he, hf e] at ih ⊢
    · simp only [getElementById, updateElem, List.map_cons, if_neg he, List.find?_cons] at ih ⊢
      rw [show (decide (e.id = i)) = false from decide_eq_false he]
      exact ih

/-- Claim C5: committing an active edit through handleSaveName writes
trim(t) of the live edit surface text t as the label when the trimmed text
is nonempty, and the default display name of the element kind when it is
empty, and re-reading the label immediately afterwards returns exactly that
value, for either value of the reshow-menu flag. -/
theorem spec_C5 (st : AppState) (b : Bool) (sid : Nat) (el : ElementR)
    (h1 : st.selected = some sid) (h2 : st.editing = some sid)
    (h3 : getElementById st.elements sid = some el) :
    (getElementById (handleSaveName st b).elements sid).map (fun e => e.name) =
      some (if el.divText.trim = "" then typeName el.type else el.divText.trim) := by
  simp only [handleSaveName, h1, h2, h3, Option.getD_some]
  have key : ∀ s1 : AppState, s1.elements =
      updateElem (updateElem st.elements sid fun e =>
        { e with name := if el.divText.trim = "" then typeName el.type else el.divText.trim })
        sid (fun e =>
        { e with divText := if el.divText.trim = "" then typeName el.type else el.divText.trim }) →
      (getElementById s1.elements sid).map (fun e => e.name) =
        some (if el.divText.trim = "" then typeName el.type else el.divText.trim) := by
    intro s1 hs1
    rw [hs1,
      getElementById_updateElem
        (updateElem st.elements sid fun e =>
          { e with name := if el.divText.trim = "" then typeName el.type else el.divText.trim })
        sid
        (fun e =>
          { e with divText := if el.divText.trim = "" then typeName el.type else el.divText.trim })
        (fun e => rfl),
      getElementById_updateElem st.elements sid
        (fun e =>
          { e with name := if el.divText.trim = "" then typeName el.type else el.divText.trim })
        (fun e => rfl),
      h3]
    rfl
  split
  · rw [key _ (showMenu_elements _ _)]
  · rw [key _ (hideAll_elements _)]

/-- Witness for C5 at a concrete input: after dropping a command and typing
text with surrounding whitespace, committing stores the trimmed text and
re-reading returns it. -/
theorem spec_C5_witness :
    (getElementById
        (handleSaveName
          (typeInEditorStep (dropStep initState (some ElemType.command) 10 10) "  Place Order ")
          true).elements 1).map (fun e => e.name) =
      some
        (if ("  Place Order " : String).trim = ""
          then typeName ElemType.command
          else ("  Place Order " : String).trim) := by
  have h := spec_C5
    (typeInEditorStep (dropStep initState (some ElemType.command) 10 10) "  Place Order ")
    true 1
    (mkElement 1 ElemType.command 10 10 "" |> fun e => { e with divText := "  Place Order " })
    (by rfl) (by rfl) (by rfl)
  exact h

theorem recomputeConn_id (es : List ElementR) (c : Conn) :
    (recomputeConn es c).id = c.id := by
  unfold recomputeConn
  cases getElementById es c.src <;> cases getElementById es c.tgt <;> rfl

theorem recomputeConn_src (es : List ElementR) (c : Conn) :
    (recomputeConn es c).src = c.src := by
  unfold recomputeConn
  cases getElementById es c.src <;> cases getElementById es c.tgt <;> rfl

theorem recomputeConn_tgt (es : List ElementR) (c : Conn) :
    (recomputeConn es c).tgt = c.tgt := by
  unfold recomputeConn
  cases getElementById es c.src <;> cases getElementById es c.tgt <;> rfl

/-- Claim C8: recomputing anchors after moving an element rewrites the
connection list pointwise; a connection not touching the element is left
exactly unchanged, any connection that changes touches the element, and
even for touched connections only the cached anchor points change (id,
source and target are preserved) - there is no global recompute. -/
theorem spec_C8 (st : AppState) (eid : Nat) :
    List.Forall₂
      (fun c c' =>
        (¬(c.src = eid ∨ c.tgt = eid) → c' = c) ∧
        (c' ≠ c → (c.src = eid ∨ c.tgt = eid)) ∧
        c'.id = c.id ∧ c'.src = c.src ∧ c'.tgt = c.tgt)
      st.conns (updateConnectionsForElement st eid).conns := by
  unfold updateConnectionsForElement
  rw [List.forall₂_map_right_iff]
  rw [List.forall₂_same]
  intro c hc
  by_cases ht : c.src = eid ∨ c.tgt = eid
  · rw [if_pos (by rcases ht with h | h <;> simp [h])]
    refine ⟨fun hn => absurd ht hn, fun _ => ht, recomputeConn_id _ _, recomputeConn_src _ _,
      recomputeConn_tgt _ _⟩
  · rw [if_neg (by
      intro hb
      rcases Bool.or_eq_true_iff.mp hb with h | h
      · exact ht (Or.inl (of_decide_eq_true h))
      · exact ht (Or.inr (of_decide_eq_true h)))]
    exact ⟨fun _ => rfl, fun hne => absurd rfl hne, rfl, rfl, rfl⟩

theorem selMin_go {α : Type} (f : α → ℚ) (l : List α) : ∀ a : α,
    ∃ r, l.foldl
        (fun acc c =>
          match acc with
          | none => some c
          | some b => if f c < f b then some c else some b)
        (some a) = some r ∧
      (r = a ∨ r ∈ l) ∧ f r ≤ f a ∧ ∀ b ∈ l, f r ≤ f b := by
  induction l with
  | nil =>
    intro a
    exact ⟨a, rfl, Or.inl rfl, le_refl _, by intro b hb; cases hb⟩
  | cons c l ih =>
    intro a
    rw [List.foldl_cons]
    by_cases hc : f c < f a
    · dsimp only
      rw [if_pos hc]
      obtain ⟨r, h1, h2, h3, h4⟩ := ih c
      refine ⟨r, h1, ?_, le_trans h3 (le_of_lt hc), ?_⟩
      · rcases h2 with h2 | h2
        · exact Or.inr (h2 ▸ List.mem_cons_self c l)
        · exact Or.inr (List.mem_cons_of_mem c h2)
      · intro b hb
        rcases List.mem_cons.mp hb with hb | hb
        · exact hb ▸ h3
        · exact h4 b hb
    · dsimp only
      rw [if_neg hc]
      obtain ⟨r, h1, h2, h3, h4⟩ := ih a
      refine ⟨r, h1, ?_, h3, ?_⟩
      · rcases h2 with h2 | h2
        · exact Or.inl h2
        · exact Or.inr (List.mem_cons_of_mem c h2)
      · intro b hb
        rcases List.mem_cons.mp hb with hb | hb
        · exact hb ▸ le_trans h3 (le_of_not_lt hc)
        · exact h4 b hb

theorem selMin_spec {α : Type} (f : α → ℚ) (l : List α) (hl : l ≠ []) :
    ∃ r, selMin f l = some r ∧ r ∈ l ∧ ∀ b ∈ l, f r ≤ f b := by
  cases l with
  | nil => exact absurd rfl hl
  | cons c l =>
    unfold selMin
    rw [List.foldl_cons]
    obtain ⟨r, h1, h2, h3, h4⟩ := selMin_go f l c
    refine ⟨r, h1, ?_, ?_⟩
    · rcases h2 with h2 | h2
      · exact h2 ▸ List.mem_cons_self c l
      · exact List.mem_cons_of_mem c h2
    · intro b hb
      rcases List.mem_cons.mp hb with hb | hb
      · exact hb ▸ h3
      · exact h4 b hb

theorem candPairs_ne_nil (a b : ElementR) : candPairs a b ≠ [] := by
  simp [candPairs, getConnectionPoints]

/-- Claim C9: for any two elements, findBestConnectionPoint returns one of
the sixteen candidate pairs built from the four side midpoints of each
element, its Euclidean distance is minimal over all sixteen pairs, and the
Connection constructor caches exactly this pair as sourcePoint and
targetPoint of the connection between the two elements. -/
theorem spec_C9 (cid : Nat) (a b : ElementR) :
    findBestConnectionPoint a b ∈ candPairs a b ∧
    (∀ c ∈ candPairs a b,
        Real.sqrt ((sqDist (findBestConnectionPoint a b).1 (findBestConnectionPoint a b).2 :
            ℚ) : ℝ) ≤
          Real.sqrt ((sqDist c.1 c.2 : ℚ) : ℝ)) ∧
    (mkConnection cid a b).sourcePoint = (findBestConnectionPoint a b).1 ∧
    (mkConnection cid a b).targetPoint = (findBestConnectionPoint a b).2 ∧
    (mkConnection cid a b).src = a.id ∧ (mkConnection cid a b).tgt = b.id := by
  obtain ⟨r, h1, h2, h3⟩ :=
    selMin_spec (fun c : APt × APt => sqDist c.1 c.2) (candPairs a b) (candPairs_ne_nil a b)
  have hr : findBestConnectionPoint a b = r := by
    unfold findBestConnectionPoint
    rw [h1]
    rfl
  refine ⟨hr ▸ h2, ?_, rfl, rfl, rfl, rfl⟩
  intro c hc
  apply Real.sqrt_le_sqrt
  rw [hr]
  exact_mod_cast h3 c hc

/-- Claim C2 (amended): completeConnection returns null and leaves both the
manager connection list and every element connections array unchanged when
the target is missing (a null target - the click handler never calls it
with an unresolved id) or when the target is the source itself.  Membership
of the source in the element store is NOT checked (see the
counterexample). -/
theorem spec_C2 (st : AppState) (s : Nat) (h1 : st.connMode = true)
    (h2 : st.connSource = some s) :
    ((completeConnection st none).1 = none ∧
      (completeConnection st none).2.conns = st.conns ∧
      (completeConnection st none).2.elements = st.elements) ∧
    ((completeConnection st (some s)).1 = none ∧
      (completeConnection st (some s)).2.conns = st.conns ∧
      (completeConnection st (some s)).2.elements = st.elements) := by
  unfold completeConnection
  rw [h1, h2]
  dsimp only
  refine ⟨⟨rfl, rfl, rfl⟩, ?_⟩
  rw [if_pos rfl]
  exact ⟨rfl, rfl, rfl⟩

/-- The state reached by: create element 1 (a command), create element 2 (a
slice), click element 1 (select it), invoke the connect menu action, press
Delete.  Element 1 is gone from the store but the connection draft still
holds it as source. -/
def staleSourceState : AppState :=
  keyDeleteStep
    (menuConnectStep
      (clickElemSingle
        (createElement (createElement initState ElemType.command 0 0 "").2 ElemType.slice 0 0
            "").2
        1 false false))

/-- Counterexample to claim C2 as stated: in the reachable state
staleSourceState the draft source id 1 does not resolve in the element
store, the target id 2 does, yet completeConnection returns a connection
and pushes it onto the manager list - the code never re-validates the
captured source reference against the store. -/
theorem spec_C2_cex :
    staleSourceState.connMode = true ∧
    staleSourceState.connSource = some 1 ∧
    (getElementById staleSourceState.elements 1).isNone = true ∧
    (getElementById staleSourceState.elements 2).isSome = true ∧
    (completeConnection staleSourceState (some 2)).1.isSome = true ∧
    (completeConnection staleSourceState (some 2)).2.conns ≠ staleSourceState.conns := by
  refine ⟨?_, ?_, ?_, ?_, ?_, ?_⟩ <;> decide

/-- The two-element state (command 1, slice 2) with a connection draft
started from element 1 by the connect menu action. -/
def draftState : AppState :=
  menuConnectStep
    (clickElemSingle
      (createElement (createElement initState ElemType.command 0 0 "").2 ElemType.slice 0 0
          "").2
      1 false false)

/-- Witness for C2 at a concrete input: with an active draft from element 1,
completing with a null target or with element 1 itself returns null and
leaves the stores unchanged. -/
theorem spec_C2_witness :
    ((completeConnection draftState none).1 = none ∧
      (completeConnection draftState none).2.conns = draftState.conns ∧
      (completeConnection draftState none).2.elements = draftState.elements) ∧
    ((completeConnection draftState (some 1)).1 = none ∧
      (completeConnection draftState (some 1)).2.conns = draftState.conns ∧
      (completeConnection draftState (some 1)).2.elements = draftState.elements) :=
  spec_C2 draftState 1 (by decide) (by decide)

/-- The state with an inline edit and a connection draft simultaneously
active: from draftState (draft from element 1), double-clicking element 2
opens its name editor while the draft stays active. -/
def bothActiveState : AppState :=
  dblClickElem draftState 2 false

/-- Claim C3 evaluated on the code at the failing input bothActiveState
(edit active on element 2, draft active from element 1).  The document-level
handler (reached only when the keydown does not target the live edit
surface) behaves as the claim says: the draft is cancelled, the edit and the
elements are untouched.  But when the Escape keydown targets the focused
edit surface - the normal case while editing - the editor keydown handler
runs first, cancels the EDIT (reshowing the menu) and stops propagation,
leaving the draft active: the opposite of the claim. -/
theorem spec_C3 :
    bothActiveState.editing = some 2 ∧
    bothActiveState.connMode = true ∧
    (keyEscapeDocStep bothActiveState).connMode = false ∧
    (keyEscapeDocStep bothActiveState).tempLine = false ∧
    (keyEscapeDocStep bothActiveState).editing = some 2 ∧
    (keyEscapeDocStep bothActiveState).elements = bothActiveState.elements ∧
    (editorEscapeStep bothActiveState).editing = none ∧
    (editorEscapeStep bothActiveState).connMode = true := by
  have h1 : bothActiveState.editing.isSome = true := by decide
  have h2 : bothActiveState.connMode = true := by decide
  have helems : (keyEscapeDocStep bothActiveState).elements = bothActiveState.elements := by
    unfold keyEscapeDocStep
    rw [if_pos h1, if_pos h2, cancelConnection_elements]
  have hconn : (editorEscapeStep bothActiveState).connMode = true := by
    unfold editorEscapeStep
    rw [cancel_connMode]
    exact h2
  refine ⟨by decide, h2, ?_, ?_, ?_, helems, ?_, hconn⟩
  · unfold keyEscapeDocStep
    rw [if_pos h1, if_pos h2]
    unfold cancelConnection
    rw [if_pos h2]
  · unfold keyEscapeDocStep
    rw [if_pos h1, if_pos h2]
    unfold cancelConnection
    rw [if_pos h2]
  · unfold keyEscapeDocStep
    rw [if_pos h1, if_pos h2, cancelConnection_editing]
    decide
  · unfold editorEscapeStep
    apply cancel_editing_none
    · decide
    · exact h1

theorem foldlRC_conns (L : List Conn) (st : AppState) :
    (L.foldl applyRemoveConnection st).conns =
      L.foldl (fun cs c => cs.eraseP fun d => decide (d.id = c.id)) st.conns := by
  induction L generalizing st with
  | nil => rfl
  | cons c L ih => rw [List.foldl_cons, List.foldl_cons, ih]; rfl

theorem foldlRC_counter (L : List Conn) (st : AppState) :
    (L.foldl applyRemoveConnection st).counter = st.counter := by
  induction L generalizing st with
  | nil => rfl
  | cons c L ih => rw [List.foldl_cons, ih]; rfl

theorem eraseP_eq_filter_of_nodup (l : List Conn) (i : Nat)
    (h : (l.map Conn.id).Nodup) :
    l.eraseP (fun d => decide (d.id = i)) = l.filter fun d => decide (d.id ≠ i) := by
  induction l with
  | nil => rfl
  | cons x l ih =>
    rw [List.map_cons, List.nodup_cons] at h
    by_cases hx : x.id = i
    · rw [List.eraseP_cons_of_pos (by simp [hx]), List.filter_cons_of_neg (by simp [hx])]
      have : ∀ d ∈ l, decide (d.id ≠ i) = true := by
        intro d hd
        simp only [decide_eq_true_eq]
        intro hdi
        apply h.1
        rw [hx, ← hdi]
        exact List.mem_map_of_mem Conn.id hd
      exact (List.filter_eq_self.mpr this).symm
    · rw [List.eraseP_cons_of_neg (by simp [hx]), List.filter_cons_of_pos (by simp [hx]),
        ih h.2]

theorem foldl_erase_skip (x : Conn) : ∀ (L cs : List Conn), (∀ c ∈ L, c.id ≠ x.id) →
    L.foldl (fun l c => l.eraseP fun d => decide (d.id = c.id)) (x :: cs) =
      x :: L.foldl (fun l c => l.eraseP fun d => decide (d.id = c.id)) cs := by
  intro L
  induction L with
  | nil => intro cs _; rfl
  | cons c L ih =>
    intro cs h
    rw [List.foldl_cons, List.foldl_cons,
      List.eraseP_cons_of_neg
        (by simp; exact fun hx => (h c (List.mem_cons_self c L)) hx.symm)]
    exact ih _ fun d hd => h d (List.mem_cons_of_mem c hd)

theorem fold_erase_filter (p : Conn → Bool) : ∀ (cs : List Conn),
    (cs.map Conn.id).Nodup →
    (cs.filter p).foldl (fun l c => l.eraseP fun d => decide (d.id = c.id)) cs =
      cs.filter fun c => !(p c) := by
  intro cs
  induction cs with
  | nil => intro _; rfl
  | cons x cs ih =>
    intro h
    rw [List.map_cons, List.nodup_cons] at h
    by_cases hp : p x = true
    · rw [List.filter_cons_of_pos hp, List.foldl_cons,
        List.eraseP_cons_of_pos (by simp), List.filter_cons_of_neg (by simp [hp]), ih h.2]
    · rw [List.filter_cons_of_neg hp, List.filter_cons_of_pos (by simp [hp]),
        foldl_erase_skip x _ cs ?hskip, ih h.2]
      case hskip =>
        intro c hc hcx
        exact h.1 (hcx ▸ List.mem_map_of_mem Conn.id (List.mem_of_mem_filter hc))

theorem removeElement_conns (st : AppState) (eid : Nat)
    (h : (st.conns.map Conn.id).Nodup) :
    (applyRemoveElement st eid).conns =
      st.conns.filter fun c => !(decide (c.src = eid) || decide (c.tgt = eid)) := by
  unfold applyRemoveElement
  show ((getConnectionsForElement st.conns eid).foldl applyRemoveConnection st).conns = _
  rw [foldlRC_conns]
  exact fold_erase_filter _ st.conns h

theorem selectElement_conns (st : AppState) (t : Option Nat) (f : Bool) :
    (selectElement st t f).conns = st.conns := by
  unfold selectElement
  repeat'
    first
    | rfl
    | rw [showMenu_conns]
    | rw [hideAll_conns]
    | rw [save_conns]
    | split
    | dsimp only

theorem getConnectionsForElement_of_filtered (cs : List Conn) (eid : Nat) :
    getConnectionsForElement
        (cs.filter fun c => !(decide (c.src = eid) || decide (c.tgt = eid))) eid = [] := by
  unfold getConnectionsForElement
  rw [List.filter_filter]
  apply List.filter_eq_nil_iff.mpr
  intro c _
  cases hs : decide (c.src = eid) <;> cases ht : decide (c.tgt = eid) <;> simp [hs, ht]

/-- Claim C4: deleting a shape - whether through the Delete key (enabled
when no edit is active) or through the delete menu action (which first
cancels an active edit) - removes every connection whose source or target
is the shape from the manager list (connectionsTouching is empty
afterwards), and afterwards neither the selection nor the editing state
refers to the deleted shape (both are cleared).  The hypothesis is that the
manager connection ids are distinct, which holds in every reachable
store. -/
theorem spec_C4 (st : AppState) (sid : Nat) (hnod : (st.conns.map Conn.id).Nodup) :
    (st.editing = none → st.selected = some sid →
      getConnectionsForElement (keyDeleteStep st).conns sid = [] ∧
      (keyDeleteStep st).selected = none ∧ (keyDeleteStep st).editing = none) ∧
    (st.selected = some sid →
      getConnectionsForElement (menuDeleteStep st).conns sid = [] ∧
      (menuDeleteStep st).selected = none ∧ (menuDeleteStep st).editing = none) := by
  constructor
  · intro hed hsel
    have hinv : editSelInv (applyRemoveElement st sid) := by
      intro e he
      rw [removeElement_editing, hed] at he
      cases he
    have hkey : keyDeleteStep st = selectElement (applyRemoveElement st sid) none false := by
      simp only [keyDeleteStep, hed, hsel, Option.isSome_none, Bool.false_eq_true, if_false]
    rw [hkey]
    refine ⟨?_, selectNone_selected _ _ hinv, selectNone_editing _ _ hinv⟩
    rw [selectElement_conns, removeElement_conns st sid hnod]
    exact getConnectionsForElement_of_filtered st.conns sid
  · intro hsel
    have h1ed : (if st.editing.isSome = true ∧ st.selected.isSome = true then
        cancelInlineEdit st false else st).editing = none := by
      cases hed : st.editing with
      | none =>
        rw [if_neg (by simp)]
        exact hed
      | some ed =>
        rw [if_pos ⟨rfl, by rw [hsel]; rfl⟩]
        exact cancel_editing_none st false (by rw [hsel]; rfl) (by rw [hed]; rfl)
    have h1sel : (if st.editing.isSome = true ∧ st.selected.isSome = true then
        cancelInlineEdit st false else st).selected = some sid := by
      split
      · rw [cancel_selected]; exact hsel
      · exact hsel
    have h1conns : (if st.editing.isSome = true ∧ st.selected.isSome = true then
        cancelInlineEdit st false else st).conns = st.conns := by
      split
      · exact cancel_conns st false
      · rfl
    have h1inv : editSelInv (if st.editing.isSome = true ∧ st.selected.isSome = true then
        cancelInlineEdit st false else st) := by
      intro e he
      rw [h1ed] at he
      cases he
    have hmenu : menuDeleteStep st =
        applyRemoveElement
          (selectElement (if st.editing.isSome = true ∧ st.selected.isSome = true then
            cancelInlineEdit st false else st) none false) sid := by
      unfold menuDeleteStep
      simp only [h1sel]
    rw [hmenu]
    refine ⟨?_, ?_, ?_⟩
    · rw [removeElement_conns _ sid (by rw [selectElement_conns, h1conns]; exact hnod),
        selectElement_conns, h1conns]
      exact getConnectionsForElement_of_filtered st.conns sid
    · rw [removeElement_selected]
      exact selectNone_selected _ _ h1inv
    · rw [removeElement_editing]
      exact selectNone_editing _ _ h1inv

/-- A concrete connection record between elements 1 and 2. -/
def c4conn : Conn :=
  { id := 3, src := 1, tgt := 2
    sourcePoint := ⟨0, 0, Side.top⟩, targetPoint := ⟨0, 0, Side.top⟩ }

/-- A concrete state: elements 1 and 2 with the connection c4conn recorded
in the manager list and in both element arrays, element 1 selected. -/
def c4state : AppState :=
  { initState with
    elements :=
      [{ mkElement 1 ElemType.command 0 0 "" with connections := [c4conn] },
        { mkElement 2 ElemType.slice 0 0 "" with connections := [c4conn] }]
    conns := [c4conn]
    counter := 4
    selected := some 1 }

/-- Witness for C4 at the concrete input c4state: pressing Delete with
element 1 selected empties connectionsTouching(1) and clears selection and
editing. -/
theorem spec_C4_witness :
    getConnectionsForElement (keyDeleteStep c4state).conns 1 = [] ∧
    (keyDeleteStep c4state).selected = none ∧
    (keyDeleteStep c4state).editing = none :=
  (spec_C4 c4state 1 (by decide)).1 rfl rfl

/-- The strengthened dual-bookkeeping invariant of the stores: unique
element ids, unique connection ids, id freshness against the counter,
connection endpoints distinct and resolvable, per-element arrays with
unique ids whose entries are connections of the manager touching that
element, and completeness: every manager connection is recorded in the
array of each of its endpoints. -/
structure StoreInv (st : AppState) : Prop where
  elemNodup : (st.elements.map ElementR.id).Nodup
  connNodup : (st.conns.map Conn.id).Nodup
  elemFresh : ∀ e ∈ st.elements, e.id < st.counter
  connFresh : ∀ c ∈ st.conns, c.id < st.counter
  endpoints : ∀ c ∈ st.conns, c.src ≠ c.tgt ∧
    (∃ e ∈ st.elements, e.id = c.src) ∧ (∃ e ∈ st.elements, e.id = c.tgt)
  arrNodup : ∀ e ∈ st.elements, (e.connections.map Conn.id).Nodup
  arrSound : ∀ e ∈ st.elements, ∀ c ∈ e.connections,
    c ∈ st.conns ∧ (c.src = e.id ∨ c.tgt = e.id)
  arrComplete : ∀ c ∈ st.conns, ∀ e ∈ st.elements,
    e.id = c.src ∨ e.id = c.tgt → c ∈ e.connections

theorem erasePElem_eq_filter (l : List ElementR) (i : Nat)
    (h : (l.map ElementR.id).Nodup) :
    l.eraseP (fun d => decide (d.id = i)) = l.filter fun d => decide (d.id ≠ i) := by
  induction l with
  | nil => rfl
  | cons x l ih =>
    rw [List.map_cons, List.nodup_cons] at h
    by_cases hx : x.id = i
    · rw [List.eraseP_cons_of_pos (by simp [hx]), List.filter_cons_of_neg (by simp [hx])]
      have : ∀ d ∈ l, decide (d.id ≠ i) = true := by
        intro d hd
        simp only [decide_eq_true_eq]
        intro hdi
        apply h.1
        rw [hx, ← hdi]
        exact List.mem_map_of_mem ElementR.id hd
      exact (List.filter_eq_self.mpr this).symm
    · rw [List.eraseP_cons_of_neg (by simp [hx]), List.filter_cons_of_pos (by simp [hx]),
        ih h.2]

theorem countP_le_one_of_nodup_map {α : Type} (f : α → Nat) (l : List α)
    (h : (l.map f).Nodup) (i : Nat) : l.countP (fun d => decide (f d = i)) ≤ 1 := by
  induction l with
  | nil => simp
  | cons x l ih =>
    rw [List.map_cons, List.nodup_cons] at h
    by_cases hx : f x = i
    · rw [List.countP_cons_of_pos _ _ (by simp [hx])]
      have hz : l.countP (fun d => decide (f d = i)) = 0 := by
        rw [List.countP_eq_zero]
        intro d hd
        simp only [decide_eq_true_eq]
        intro hdi
        apply h.1
        rw [hx, ← hdi]
        exact List.mem_map_of_mem f hd
      rw [hz]
    · rw [List.countP_cons_of_neg _ _ (by simp [hx])]
      exact ih h.2

theorem countP_id_one {α : Type} (f : α → Nat) (l : List α) (c : α)
    (h : (l.map f).Nodup) (hc : c ∈ l) : l.countP (fun d => decide (f d = f c)) = 1 := by
  refine Nat.le_antisymm (countP_le_one_of_nodup_map f l h (f c)) ?_
  rw [Nat.succ_le_iff]
  rw [List.countP_pos]
  exact ⟨c, hc, by simp⟩

theorem idInj_of_nodup_map {α : Type} (f : α → Nat) (l : List α)
    (h : (l.map f).Nodup) {a b : α} (ha : a ∈ l) (hb : b ∈ l) (hab : f a = f b) :
    a = b :=
  List.inj_on_of_nodup_map h ha hb hab

theorem updateElem_map_id (es : List ElementR) (i : Nat) (f : ElementR → ElementR)
    (hf : ∀ e, (f e).id = e.id) :
    (updateElem es i f).map ElementR.id = es.map ElementR.id := by
  unfold updateElem
  rw [List.map_map]
  apply List.map_congr_left
  intro e _
  by_cases he : e.id = i
  · simp [he, hf]
  · simp [he]

theorem updateElem_mem {es : List ElementR} {i : Nat} {f : ElementR → ElementR}
    {e' : ElementR} (h : e' ∈ updateElem es i f) :
    ∃ e ∈ es, e' = if e.id = i then f e else e := by
  unfold updateElem at h
  obtain ⟨e, he, heq⟩ := List.mem_map.mp h
  exact ⟨e, he, heq.symm⟩

theorem updateElem_mem_of_mem {es : List ElementR} {i : Nat} {f : ElementR → ElementR}
    {e : ElementR} (h : e ∈ es) :
    (if e.id = i then f e else e) ∈ updateElem es i f :=
  List.mem_map_of_mem _ h

theorem getElementById_isSome_exists {es : List ElementR} {i : Nat}
    (h : (getElementById es i).isSome = true) : ∃ e ∈ es, e.id = i := by
  obtain ⟨e, he⟩ := Option.isSome_iff_exists.mp h
  exact ⟨e, List.mem_of_find?_eq_some he, by
    have := List.find?_some he
    exact of_decide_eq_true this⟩

theorem placeAttempts_id (es : List ElementR) : ∀ (n : Nat) (e : ElementR),
    (placeAttempts es e n).id = e.id := by
  intro n
  induction n with
  | zero => intro e; rfl
  | succ n ih =>
    intro e
    unfold placeAttempts
    split
    · rw [ih (offsetElem e)]; rfl
    · rfl

theorem placeAttempts_connections (es : List ElementR) : ∀ (n : Nat) (e : ElementR),
    (placeAttempts es e n).connections = e.connections := by
  intro n
  induction n with
  | zero => intro e; rfl
  | succ n ih =>
    intro e
    unfold placeAttempts
    split
    · rw [ih (offsetElem e)]; rfl
    · rfl

theorem storeInv_createElem (st : AppState) (t : ElemType) (x y : ℚ) (name : String)
    (h : StoreInv st) : StoreInv (createElement st t x y name).2 := by
  obtain ⟨h1, h2, h3, h4, h5, h6, h7, h8⟩ := h
  have hid : (placeAttempts st.elements (mkElement st.counter t x y name) 5).id =
      st.counter := by
    rw [placeAttempts_id]; rfl
  have hconn : (placeAttempts st.elements (mkElement st.counter t x y name) 5).connections =
      [] := by
    rw [placeAttempts_connections]; rfl
  refine ⟨?_, ?_, ?_, ?_, ?_, ?_, ?_, ?_⟩
  · rw [show (createElement st t x y name).2.elements = st.elements ++
      [placeAttempts st.elements (mkElement st.counter t x y name) 5] from rfl,
      List.map_append, List.nodup_append]
    refine ⟨h1, by simp, ?_⟩
    intro a ha hb
    simp only [List.map_cons, List.map_nil, List.mem_singleton, hid] at hb
    obtain ⟨e, he, heq⟩ := List.mem_map.mp ha
    have hlt := h3 e he
    rw [heq, hb] at hlt
    exact Nat.lt_irrefl _ hlt
  · exact h2
  · intro e he
    rcases List.mem_append.mp he with he | he
    · exact Nat.lt_trans (h3 e he) (Nat.lt_succ_self _)
    · rw [List.mem_singleton.mp he, hid]
      exact Nat.lt_succ_self _
  · intro c hc
    exact Nat.lt_trans (h4 c hc) (Nat.lt_succ_self _)
  · intro c hc
    obtain ⟨hne, ⟨es', hes', heqs⟩, ⟨et', het', heqt⟩⟩ := h5 c hc
    exact ⟨hne, ⟨es', List.mem_append_left _ hes', heqs⟩,
      ⟨et', List.mem_append_left _ het', heqt⟩⟩
  · intro e he
    rcases List.mem_append.mp he with he | he
    · exact h6 e he
    · rw [List.mem_singleton.mp he, hconn]
      simp
  · intro e he c hc
    rcases List.mem_append.mp he with he | he
    · exact h7 e he c hc
    · rw [List.mem_singleton.mp he, hconn] at hc
      cases hc
  · intro c hc e he hor
    rcases List.mem_append.mp he with he | he
    · exact h8 c hc e he hor
    · exfalso
      obtain ⟨-, ⟨es', hes', heqs⟩, ⟨et', het', heqt⟩⟩ := h5 c hc
      rw [List.mem_singleton.mp he, hid] at hor
      rcases hor with hor | hor
      · rw [← hor] at heqs
        have hlt := h3 es' hes'
        rw [heqs] at hlt
        exact Nat.lt_irrefl _ hlt
      · rw [← hor] at heqt
        have hlt := h3 et' het'
        rw [heqt] at hlt
        exact Nat.lt_irrefl _ hlt

theorem removeConn_elements_char (st : AppState) (c : Conn) (hne : c.src ≠ c.tgt) :
    ∀ e' ∈ (applyRemoveConnection st c).elements, ∃ e ∈ st.elements, e'.id = e.id ∧
      ((¬(e.id = c.src ∨ e.id = c.tgt) ∧ e' = e) ∨
        ((e.id = c.src ∨ e.id = c.tgt) ∧ e' = eraseConnById c.id e)) := by
  intro e' he'
  obtain ⟨e1, he1, heq1⟩ := updateElem_mem he'
  obtain ⟨e, he, heq⟩ := updateElem_mem he1
  by_cases hs : e.id = c.src
  · have he1e : e1 = eraseConnById c.id e := by rw [heq, if_pos hs]
    have hid1 : e1.id = e.id := by rw [he1e]; rfl
    have hnt : ¬(e1.id = c.tgt) := by rw [hid1, hs]; exact hne
    refine ⟨e, he, ?_, Or.inr ⟨Or.inl hs, ?_⟩⟩
    · rw [heq1, if_neg hnt, hid1]
    · rw [heq1, if_neg hnt, he1e]
  · have he1e : e1 = e := by rw [heq, if_neg hs]
    subst he1e
    by_cases ht : e1.id = c.tgt
    · refine ⟨e1, he, ?_, Or.inr ⟨Or.inr ht, ?_⟩⟩
      · rw [heq1, if_pos ht]; rfl
      · rw [heq1, if_pos ht]
    · refine ⟨e1, he, ?_, Or.inl ⟨?_, ?_⟩⟩
      · rw [heq1, if_neg ht]
      · intro hor
        rcases hor with hor | hor
        · exact hs hor
        · exact ht hor
      · rw [heq1, if_neg ht]

theorem removeConn_elements_of_mem (st : AppState) (c : Conn) (hne : c.src ≠ c.tgt) :
    ∀ e ∈ st.elements,
      (¬(e.id = c.src ∨ e.id = c.tgt) → e ∈ (applyRemoveConnection st c).elements) ∧
      ((e.id = c.src ∨ e.id = c.tgt) →
        eraseConnById c.id e ∈ (applyRemoveConnection st c).elements) := by
  intro e he
  constructor
  · intro hnor
    have hs : ¬(e.id = c.src) := fun h => hnor (Or.inl h)
    have ht : ¬(e.id = c.tgt) := fun h => hnor (Or.inr h)
    have h1 : e ∈ updateElem st.elements c.src (eraseConnById c.id) := by
      have := updateElem_mem_of_mem (i := c.src) (f := eraseConnById c.id) he
      rwa [if_neg hs] at this
    have h2 := updateElem_mem_of_mem (i := c.tgt) (f := eraseConnById c.id) h1
    rwa [if_neg ht] at h2
  · intro hor
    rcases hor with hs | ht
    · have h1 : eraseConnById c.id e ∈ updateElem st.elements c.src (eraseConnById c.id) := by
        have := updateElem_mem_of_mem (i := c.src) (f := eraseConnById c.id) he
        rwa [if_pos hs] at this
      have h2 := updateElem_mem_of_mem (i := c.tgt) (f := eraseConnById c.id) h1
      have hnt : ¬((eraseConnById c.id e).id = c.tgt) := by
        show ¬(e.id = c.tgt)
        intro habs
        exact hne (hs ▸ habs ▸ rfl)
      rwa [if_neg hnt] at h2
    · by_cases hs : e.id = c.src
      · exact absurd (hs ▸ ht ▸ rfl) hne
      · have h1 : e ∈ updateElem st.elements c.src (eraseConnById c.id) := by
          have := updateElem_mem_of_mem (i := c.src) (f := eraseConnById c.id) he
          rwa [if_neg hs] at this
        have h2 := updateElem_mem_of_mem (i := c.tgt) (f := eraseConnById c.id) h1
        rwa [if_pos ht] at h2

theorem storeInv_removeConn (st : AppState) (c : Conn) (h : StoreInv st)
    (hc : c ∈ st.conns) : StoreInv (applyRemoveConnection st c) := by
  obtain ⟨h1, h2, h3, h4, h5, h6, h7, h8⟩ := h
  have hne : c.src ≠ c.tgt := (h5 c hc).1
  have hconns : (applyRemoveConnection st c).conns =
      st.conns.filter fun d => decide (d.id ≠ c.id) :=
    eraseP_eq_filter_of_nodup st.conns c.id h2
  have hcmem : ∀ d, d ∈ (applyRemoveConnection st c).conns ↔ d ∈ st.conns ∧ d.id ≠ c.id := by
    intro d
    rw [hconns, List.mem_filter]
    simp
  have hmapid : (applyRemoveConnection st c).elements.map ElementR.id =
      st.elements.map ElementR.id := by
    show (updateElem (updateElem _ _ _) _ _).map _ = _
    rw [updateElem_map_id (updateElem st.elements c.src (eraseConnById c.id)) c.tgt
        (eraseConnById c.id) (fun e => rfl),
      updateElem_map_id st.elements c.src (eraseConnById c.id) (fun e => rfl)]
  refine ⟨?_, ?_, ?_, ?_, ?_, ?_, ?_, ?_⟩
  · rw [hmapid]; exact h1
  · rw [hconns]
    exact List.Nodup.sublist ((List.filter_sublist st.conns).map Conn.id) h2
  · intro e' he'
    obtain ⟨e, he, hid, -⟩ := removeConn_elements_char st c hne e' he'
    rw [hid]
    exact h3 e he
  · intro d hd
    exact h4 d ((hcmem d).mp hd).1
  · intro d hd
    obtain ⟨hd1, hdid⟩ := (hcmem d).mp hd
    obtain ⟨hne', ⟨es', hes', heqs⟩, ⟨et', het', heqt⟩⟩ := h5 d hd1
    refine ⟨hne', ?_, ?_⟩
    · by_cases hor : es'.id = c.src ∨ es'.id = c.tgt
      · exact ⟨eraseConnById c.id es',
          (removeConn_elements_of_mem st c hne es' hes').2 hor, heqs⟩
      · exact ⟨es', (removeConn_elements_of_mem st c hne es' hes').1 hor, heqs⟩
    · by_cases hor : et'.id = c.src ∨ et'.id = c.tgt
      · exact ⟨eraseConnById c.id et',
          (removeConn_elements_of_mem st c hne et' het').2 hor, heqt⟩
      · exact ⟨et', (removeConn_elements_of_mem st c hne et' het').1 hor, heqt⟩
  · intro e' he'
    obtain ⟨e, he, hid, hcase⟩ := removeConn_elements_char st c hne e' he'
    rcases hcase with ⟨-, heq⟩ | ⟨-, heq⟩
    · rw [heq]
      exact h6 e he
    · rw [heq]
      exact List.Nodup.sublist ((List.eraseP_sublist _).map Conn.id) (h6 e he)
  · intro e' he' d hd
    obtain ⟨e, he, hid, hcase⟩ := removeConn_elements_char st c hne e' he'
    rcases hcase with ⟨hnor, heq⟩ | ⟨hor, heq⟩
    · rw [heq] at hd ⊢
      obtain ⟨hdc, hdor⟩ := h7 e he d hd
      refine ⟨(hcmem d).mpr ⟨hdc, ?_⟩, hdor⟩
      intro hdid
      have hdc2 : d = c := idInj_of_nodup_map Conn.id st.conns h2 hdc hc hdid
      apply hnor
      rw [← hdc2]
      rcases hdor with hh | hh
      · exact Or.inl hh.symm
      · exact Or.inr hh.symm
    · rw [heq] at hd ⊢
      have hfe : (eraseConnById c.id e).connections =
          e.connections.filter fun d => decide (d.id ≠ c.id) :=
        eraseP_eq_filter_of_nodup e.connections c.id (h6 e he)
      rw [hfe] at hd
      obtain ⟨hdmem, hdid⟩ := List.mem_filter.mp hd
      obtain ⟨hdc, hdor⟩ := h7 e he d hdmem
      exact ⟨(hcmem d).mpr ⟨hdc, by simpa using hdid⟩, hdor⟩
  · intro d hd e' he' hor
    obtain ⟨hd1, hdid⟩ := (hcmem d).mp hd
    obtain ⟨e, he, hid, hcase⟩ := removeConn_elements_char st c hne e' he'
    rcases hcase with ⟨-, heq⟩ | ⟨-, heq⟩
    · rw [heq] at hor ⊢
      exact h8 d hd1 e he hor
    · rw [heq] at hor ⊢
      have hfe : (eraseConnById c.id e).connections =
          e.connections.filter fun d => decide (d.id ≠ c.id) :=
        eraseP_eq_filter_of_nodup e.connections c.id (h6 e he)
      have hde : d ∈ e.connections := h8 d hd1 e he hor
      show d ∈ (eraseConnById c.id e).connections
      rw [hfe]
      exact List.mem_filter.mpr ⟨hde, by simpa using hdid⟩

theorem doubleUpd_char (es : List ElementR) (i j : Nat) (f : ElementR → ElementR)
    (hf : ∀ e, (f e).id = e.id) (hij : i ≠ j) :
    ∀ e' ∈ updateElem (updateElem es i f) j f, ∃ e ∈ es, e'.id = e.id ∧
      ((¬(e.id = i ∨ e.id = j) ∧ e' = e) ∨ ((e.id = i ∨ e.id = j) ∧ e' = f e)) := by
  intro e' he'
  obtain ⟨e1, he1, heq1⟩ := updateElem_mem he'
  obtain ⟨e, he, heq⟩ := updateElem_mem he1
  by_cases hs : e.id = i
  · have he1e : e1 = f e := by rw [heq, if_pos hs]
    have hid1 : e1.id = e.id := by rw [he1e]; exact hf e
    have hnt : ¬(e1.id = j) := by rw [hid1, hs]; exact hij
    refine ⟨e, he, ?_, Or.inr ⟨Or.inl hs, ?_⟩⟩
    · rw [heq1, if_neg hnt, hid1]
    · rw [heq1, if_neg hnt, he1e]
  · have he1e : e1 = e := by rw [heq, if_neg hs]
    subst he1e
    by_cases ht : e1.id = j
    · refine ⟨e1, he, ?_, Or.inr ⟨Or.inr ht, ?_⟩⟩
      · rw [heq1, if_pos ht]; exact hf e1
      · rw [heq1, if_pos ht]
    · refine ⟨e1, he, ?_, Or.inl ⟨?_, ?_⟩⟩
      · rw [heq1, if_neg ht]
      · intro hor
        rcases hor with hor | hor
        · exact hs hor
        · exact ht hor
      · rw [heq1, if_neg ht]

theorem doubleUpd_of_mem (es : List ElementR) (i j : Nat) (f : ElementR → ElementR)
    (hf : ∀ e, (f e).id = e.id) (hij : i ≠ j) :
    ∀ e ∈ es,
      (¬(e.id = i ∨ e.id = j) → e ∈ updateElem (updateElem es i f) j f) ∧
      ((e.id = i ∨ e.id = j) → f e ∈ updateElem (updateElem es i f) j f) := by
  intro e he
  constructor
  · intro hnor
    have hs : ¬(e.id = i) := fun h => hnor (Or.inl h)
    have ht : ¬(e.id = j) := fun h => hnor (Or.inr h)
    have h1 : e ∈ updateElem es i f := by
      have := updateElem_mem_of_mem (i := i) (f := f) he
      rwa [if_neg hs] at this
    have h2 := updateElem_mem_of_mem (i := j) (f := f) h1
    rwa [if_neg ht] at h2
  · intro hor
    rcases hor with hs | ht
    · have h1 : f e ∈ updateElem es i f := by
        have := updateElem_mem_of_mem (i := i) (f := f) he
        rwa [if_pos hs] at this
      have h2 := updateElem_mem_of_mem (i := j) (f := f) h1
      have hnt : ¬((f e).id = j) := by
        rw [hf e, hs]
        exact hij
      rwa [if_neg hnt] at h2
    · by_cases hs : e.id = i
      · exact absurd (hs ▸ ht ▸ rfl) hij
      · have h1 : e ∈ updateElem es i f := by
          have := updateElem_mem_of_mem (i := i) (f := f) he
          rwa [if_neg hs] at this
        have h2 := updateElem_mem_of_mem (i := j) (f := f) h1
        rwa [if_pos ht] at h2

theorem storeInv_congr (st st' : AppState) (he : st'.elements = st.elements)
    (hc : st'.conns = st.conns) (hk : st'.counter = st.counter) (h : StoreInv st) :
    StoreInv st' := by
  obtain ⟨h1, h2, h3, h4, h5, h6, h7, h8⟩ := h
  refine ⟨?_, ?_, ?_, ?_, ?_, ?_, ?_, ?_⟩
  all_goals first
    | (rw [he]; exact h1)
    | (rw [hc]; exact h2)
    | (rw [he, hk]; exact h3)
    | (rw [hc, hk]; exact h4)
    | (rw [hc, he]; exact h5)
    | (rw [he]; exact h6)
    | (rw [he, hc]; exact h7)
    | (rw [hc, he]; exact h8)

theorem mkConn_id (st : AppState) (s t : Nat) : (mkConn st s t).id = st.counter := by
  unfold mkConn
  cases getElementById st.elements s <;> cases getElementById st.elements t <;> rfl

theorem mkConn_src (st : AppState) (s t : Nat) : (mkConn st s t).src = s := by
  unfold mkConn
  cases hg1 : getElementById st.elements s with
  | none => cases getElementById st.elements t <;> rfl
  | some a =>
    cases hg2 : getElementById st.elements t with
    | none => rfl
    | some b =>
      show a.id = s
      unfold getElementById at hg1
      have hpa := List.find?_some hg1
      simp only [decide_eq_true_eq] at hpa
      exact hpa

theorem mkConn_tgt (st : AppState) (s t : Nat) : (mkConn st s t).tgt = t := by
  unfold mkConn
  cases hg1 : getElementById st.elements s with
  | none => cases getElementById st.elements t <;> rfl
  | some a =>
    cases hg2 : getElementById st.elements t with
    | none => rfl
    | some b =>
      show b.id = t
      unfold getElementById at hg2
      have hpb := List.find?_some hg2
      simp only [decide_eq_true_eq] at hpb
      exact hpb

theorem completeConnection_some_char (st : AppState) (s t : Nat) (h1 : st.connMode = true)
    (h2 : st.connSource = some s) (hts : t ≠ s) :
    ∃ c, (completeConnection st (some t)).1 = some c ∧ c.id = st.counter ∧ c.src = s ∧
      c.tgt = t ∧
      (completeConnection st (some t)).2.conns = st.conns ++ [c] ∧
      (completeConnection st (some t)).2.counter = st.counter + 1 ∧
      (completeConnection st (some t)).2.elements =
        updateElem (updateElem st.elements s (pushConn c)) t (pushConn c) := by
  unfold completeConnection
  rw [h1, h2]
  dsimp only
  rw [if_neg hts]
  exact ⟨_, rfl, mkConn_id _ s t, mkConn_src _ s t, mkConn_tgt _ s t, rfl, rfl, rfl⟩

theorem startConnection_fields (st : AppState) (s : Nat) :
    (startConnection st s).elements = st.elements ∧ (startConnection st s).conns = st.conns ∧
      (startConnection st s).counter = st.counter ∧ (startConnection st s).connMode = true ∧
      (startConnection st s).connSource = some s := by
  unfold startConnection cancelConnection
  split
  · exact ⟨rfl, rfl, rfl, rfl, rfl⟩
  · exact ⟨rfl, rfl, rfl, rfl, rfl⟩

theorem storeInv_createConn (st : AppState) (s t : Nat)
    (hs : (getElementById st.elements s).isSome = true)
    (ht : (getElementById st.elements t).isSome = true) (h : StoreInv st) :
    StoreInv (completeConnection (startConnection st s) (some t)).2 := by
  obtain ⟨hse, hsc, hsk, hsm, hss⟩ := startConnection_fields st s
  by_cases hts : t = s
  · subst hts
    unfold completeConnection
    rw [hsm, hss]
    dsimp only
    rw [if_pos rfl]
    exact storeInv_congr _ _ hse hsc hsk h
  · obtain ⟨c, -, hcid, hcsrc, hctgt, hconns, hcounter, helems⟩ :=
      completeConnection_some_char (startConnection st s) s t hsm hss hts
    rw [hse] at helems
    rw [hsc] at hconns
    rw [hsk] at hcounter hcid
    obtain ⟨h1, h2, h3, h4, h5, h6, h7, h8⟩ := h
    have hchar := doubleUpd_char st.elements s t (pushConn c) (fun e => rfl) (fun hst => hts hst.symm)
    have hofmem := doubleUpd_of_mem st.elements s t (pushConn c) (fun e => rfl) (fun hst => hts hst.symm)
    refine ⟨?_, ?_, ?_, ?_, ?_, ?_, ?_, ?_⟩
    · rw [helems, updateElem_map_id _ t (pushConn c) (fun e => rfl),
        updateElem_map_id _ s (pushConn c) (fun e => rfl)]
      exact h1
    · rw [hconns, List.map_append, List.nodup_append]
      refine ⟨h2, by simp, ?_⟩
      intro a ha hb
      simp only [List.map_cons, List.map_nil, List.mem_singleton, hcid] at hb
      obtain ⟨d, hd, heqd⟩ := List.mem_map.mp ha
      have hlt := h4 d hd
      rw [heqd, hb] at hlt
      exact Nat.lt_irrefl _ hlt
    · intro e' he'
      rw [helems] at he'
      obtain ⟨e, he, hid, -⟩ := hchar e' he'
      rw [hcounter, hid]
      exact Nat.lt_trans (h3 e he) (Nat.lt_succ_self _)
    · intro d hd
      rw [hconns] at hd
      rw [hcounter]
      rcases List.mem_append.mp hd with hd | hd
      · exact Nat.lt_trans (h4 d hd) (Nat.lt_succ_self _)
      · rw [List.mem_singleton.mp hd, hcid]
        exact Nat.lt_succ_self _
    · intro d hd
      rw [hconns] at hd
      rcases List.mem_append.mp hd with hd | hd
      · obtain ⟨hne', ⟨es', hes', heqs⟩, ⟨et', het', heqt⟩⟩ := h5 d hd
        refine ⟨hne', ?_, ?_⟩
        · rw [helems]
          by_cases hor : es'.id = s ∨ es'.id = t
          · exact ⟨pushConn c es', (hofmem es' hes').2 hor, heqs⟩
          · exact ⟨es', (hofmem es' hes').1 hor, heqs⟩
        · rw [helems]
          by_cases hor : et'.id = s ∨ et'.id = t
          · exact ⟨pushConn c et', (hofmem et' het').2 hor, heqt⟩
          · exact ⟨et', (hofmem et' het').1 hor, heqt⟩
      · rw [List.mem_singleton.mp hd]
        refine ⟨by rw [hcsrc, hctgt]; exact fun hst => hts hst.symm, ?_, ?_⟩
        · obtain ⟨es', hes', heqs⟩ := getElementById_isSome_exists hs
          rw [helems, hcsrc]
          by_cases hor : es'.id = s ∨ es'.id = t
          · exact ⟨pushConn c es', (hofmem es' hes').2 hor, heqs⟩
          · exact absurd (Or.inl heqs) hor
        · obtain ⟨et', het', heqt⟩ := getElementById_isSome_exists ht
          rw [helems, hctgt]
          by_cases hor : et'.id = s ∨ et'.id = t
          · exact ⟨pushConn c et', (hofmem et' het').2 hor, heqt⟩
          · exact absurd (Or.inr heqt) hor
    · intro e' he'
      rw [helems] at he'
      obtain ⟨e, he, hid, hcase⟩ := hchar e' he'
      rcases hcase with ⟨-, heq⟩ | ⟨-, heq⟩
      · rw [heq]
        exact h6 e he
      · rw [heq]
        show ((e.connections ++ [c]).map Conn.id).Nodup
        rw [List.map_append, List.nodup_append]
        refine ⟨h6 e he, by simp, ?_⟩
        intro a ha hb
        simp only [List.map_cons, List.map_nil, List.mem_singleton, hcid] at hb
        obtain ⟨d, hd, heqd⟩ := List.mem_map.mp ha
        have hdc := (h7 e he d hd).1
        have hlt := h4 d hdc
        rw [heqd, hb] at hlt
        exact Nat.lt_irrefl _ hlt
    · intro e' he' d hd
      rw [helems] at he'
      rw [hconns]
      obtain ⟨e, he, hid, hcase⟩ := hchar e' he'
      rcases hcase with ⟨hnor, heq⟩ | ⟨hor, heq⟩
      · rw [heq] at hd ⊢
        obtain ⟨hdc, hdor⟩ := h7 e he d hd
        exact ⟨List.mem_append_left _ hdc, hdor⟩
      · rw [heq] at hd ⊢
        rcases List.mem_append.mp hd with hd2 | hd2
        · obtain ⟨hdc, hdor⟩ := h7 e he d hd2
          exact ⟨List.mem_append_left _ hdc, hdor⟩
        · rw [List.mem_singleton.mp hd2]
          refine ⟨List.mem_append_right _ (List.mem_singleton.mpr rfl), ?_⟩
          show c.src = (pushConn c e).id ∨ c.tgt = (pushConn c e).id
          rcases hor with hor | hor
          · exact Or.inl (by rw [hcsrc]; exact hor.symm)
          · exact Or.inr (by rw [hctgt]; exact hor.symm)
    · intro d hd e' he' hor
      rw [hconns] at hd
      rw [helems] at he'
      obtain ⟨e, he, hid, hcase⟩ := hchar e' he'
      rcases List.mem_append.mp hd with hd1 | hd1
      · have hde : d ∈ e.connections := by
          apply h8 d hd1 e he
          rw [← hid]
          exact hor
        rcases hcase with ⟨-, heq⟩ | ⟨-, heq⟩
        · rw [heq]
          exact hde
        · rw [heq]
          exact List.mem_append_left _ hde
      · rw [List.mem_singleton.mp hd1] at hor ⊢
        rcases hcase with ⟨hnor, heq⟩ | ⟨hor2, heq⟩
        · exfalso
          apply hnor
          rcases hor with hh | hh
          · left
            rw [← hid, hh]
            exact hcsrc
          · right
            rw [← hid, hh]
            exact hctgt
        · rw [heq]
          exact List.mem_append_right _ (List.mem_singleton.mpr rfl)

theorem storeInv_foldRC : ∀ (L : List Conn) (st : AppState), StoreInv st →
    (∀ c ∈ L, c ∈ st.conns) → ((L.map Conn.id).Nodup) →
    StoreInv (L.foldl applyRemoveConnection st) := by
  intro L
  induction L with
  | nil => intro st h _ _; exact h
  | cons c L ih =>
    intro st h hmem hnod
    rw [List.map_cons, List.nodup_cons] at hnod
    rw [List.foldl_cons]
    have hc : c ∈ st.conns := hmem c (List.mem_cons_self c L)
    apply ih (applyRemoveConnection st c) (storeInv_removeConn st c h hc)
    · intro d hd
      have hdc : d ∈ st.conns := hmem d (List.mem_cons_of_mem c hd)
      have hconns : (applyRemoveConnection st c).conns =
          st.conns.filter fun x => decide (x.id ≠ c.id) :=
        eraseP_eq_filter_of_nodup st.conns c.id h.connNodup
      rw [hconns, List.mem_filter]
      refine ⟨hdc, ?_⟩
      simp only [decide_eq_true_eq]
      intro hdi
      apply hnod.1
      rw [← hdi]
      exact List.mem_map_of_mem Conn.id hd
    · exact hnod.2

theorem storeInv_eraseElem (st1 : AppState) (eid : Nat) (h : StoreInv st1)
    (hnt : ∀ c ∈ st1.conns, ¬(c.src = eid ∨ c.tgt = eid)) :
    StoreInv { st1 with elements := st1.elements.eraseP fun e => decide (e.id = eid) } := by
  obtain ⟨h1, h2, h3, h4, h5, h6, h7, h8⟩ := h
  have hfe : st1.elements.eraseP (fun e => decide (e.id = eid)) =
      st1.elements.filter fun e => decide (e.id ≠ eid) :=
    erasePElem_eq_filter st1.elements eid h1
  refine ⟨?_, h2, ?_, h4, ?_, ?_, ?_, ?_⟩
  · show ((st1.elements.eraseP _).map ElementR.id).Nodup
    exact List.Nodup.sublist ((List.eraseP_sublist _).map ElementR.id) h1
  · intro e he
    exact h3 e (List.mem_of_mem_eraseP he)
  · intro c hc
    obtain ⟨hne', ⟨es', hes', heqs⟩, ⟨et', het', heqt⟩⟩ := h5 c hc
    have hns : ¬(c.src = eid) := fun hh => hnt c hc (Or.inl hh)
    have hntg : ¬(c.tgt = eid) := fun hh => hnt c hc (Or.inr hh)
    refine ⟨hne', ⟨es', ?_, heqs⟩, ⟨et', ?_, heqt⟩⟩
    · show es' ∈ st1.elements.eraseP fun e => decide (e.id = eid)
      rw [hfe]
      refine List.mem_filter.mpr ⟨hes', ?_⟩
      simp only [decide_eq_true_eq]
      rw [heqs]
      exact hns
    · show et' ∈ st1.elements.eraseP fun e => decide (e.id = eid)
      rw [hfe]
      refine List.mem_filter.mpr ⟨het', ?_⟩
      simp only [decide_eq_true_eq]
      rw [heqt]
      exact hntg
  · intro e he
    exact h6 e (List.mem_of_mem_eraseP he)
  · intro e he c hc
    exact h7 e (List.mem_of_mem_eraseP he) c hc
  · intro c hc e he hor
    exact h8 c hc e (List.mem_of_mem_eraseP he) hor

theorem storeInv_removeElem (st : AppState) (eid : Nat) (h : StoreInv st) :
    StoreInv (applyRemoveElement st eid) := by
  have hfold : StoreInv ((getConnectionsForElement st.conns eid).foldl
      applyRemoveConnection st) := by
    apply storeInv_foldRC _ _ h
    · intro c hc
      exact List.mem_of_mem_filter hc
    · exact List.Nodup.sublist ((List.filter_sublist st.conns).map Conn.id) h.connNodup
  have hconns : ((getConnectionsForElement st.conns eid).foldl
      applyRemoveConnection st).conns =
      st.conns.filter fun c => !(decide (c.src = eid) || decide (c.tgt = eid)) := by
    rw [foldlRC_conns]
    exact fold_erase_filter _ st.conns h.connNodup
  apply storeInv_eraseElem _ eid hfold
  intro c hc
  rw [hconns, List.mem_filter] at hc
  have hb := hc.2
  simp at hb
  intro hor
  rcases hor with hh | hh
  · exact hb.1 hh
  · exact hb.2 hh

theorem storeInv_init : StoreInv initState := by
  refine ⟨?_, ?_, ?_, ?_, ?_, ?_, ?_, ?_⟩ <;>
    first
      | exact List.nodup_nil
      | (intro x hx; cases hx)

theorem storeReachable_inv (st : AppState) (h : StoreReachable st) : StoreInv st := by
  induction h with
  | init => exact storeInv_init
  | step hr hs ih =>
    cases hs with
    | createElem t x y name => exact storeInv_createElem _ t x y name ih
    | createConn s t hs2 ht2 => exact storeInv_createConn _ s t hs2 ht2 ih
    | removeConn c hc => exact storeInv_removeConn _ c ih hc
    | removeElem eid => exact storeInv_removeElem _ eid ih

/-- Claim C10: after any sequence of element creations, connection creations
(startConnection immediately followed by completeConnection on elements of
the current store), connection removals and element removals starting from
the empty stores, a connection is in the manager list exactly when it is in
the connections array of its source element and in the connections array of
its target element, and in that case it occurs exactly once in the manager
list and exactly once in each array that contains it. -/
theorem spec_C10 (st : AppState) (h : StoreReachable st) (c : Conn) :
    (c ∈ st.conns ↔
      (∃ e ∈ st.elements, e.id = c.src ∧ c ∈ e.connections) ∧
      (∃ e ∈ st.elements, e.id = c.tgt ∧ c ∈ e.connections)) ∧
    (c ∈ st.conns →
      st.conns.countP (fun d => decide (d.id = c.id)) = 1 ∧
      ∀ e ∈ st.elements, c ∈ e.connections →
        e.connections.countP (fun d => decide (d.id = c.id)) = 1) := by
  obtain ⟨h1, h2, h3, h4, h5, h6, h7, h8⟩ := storeReachable_inv st h
  constructor
  · constructor
    · intro hc
      obtain ⟨-, ⟨es', hes', heqs⟩, ⟨et', het', heqt⟩⟩ := h5 c hc
      exact ⟨⟨es', hes', heqs, h8 c hc es' hes' (Or.inl heqs)⟩,
        ⟨et', het', heqt, h8 c hc et' het' (Or.inr heqt)⟩⟩
    · rintro ⟨⟨es', hes', -, hce⟩, -⟩
      exact (h7 es' hes' c hce).1
  · intro hc
    refine ⟨countP_id_one Conn.id st.conns c h2 hc, ?_⟩
    intro e he hce
    exact countP_id_one Conn.id e.connections c (h6 e he) hce

/-- A concrete reachable store: element 1 (command), element 2 (slice), and
a connection created from 1 to 2 through startConnection followed by
completeConnection. -/
def c10state : AppState :=
  (completeConnection
    (startConnection
      (createElement (createElement initState ElemType.command 0 0 "").2 ElemType.slice 0 0
          "").2
      1)
    (some 2)).2

/-- Witness for C10 at the concrete reachable store c10state: the
equivalence and the count bounds hold for a sample connection record. -/
theorem spec_C10_witness :
    (c4conn ∈ c10state.conns ↔
      (∃ e ∈ c10state.elements, e.id = c4conn.src ∧ c4conn ∈ e.connections) ∧
      (∃ e ∈ c10state.elements, e.id = c4conn.tgt ∧ c4conn ∈ e.connections)) ∧
    (c4conn ∈ c10state.conns →
      c10state.conns.countP (fun d => decide (d.id = c4conn.id)) = 1 ∧
      ∀ e ∈ c10state.elements, c4conn ∈ e.connections →
        e.connections.countP (fun d => decide (d.id = c4conn.id)) = 1) :=
  spec_C10 c10state
    (StoreReachable.step
      (StoreReachable.step
        (StoreReachable.step StoreReachable.init
          (StoreStep.createElem initState ElemType.command 0 0 ""))
        (StoreStep.createElem _ ElemType.slice 0 0 ""))
      (StoreStep.createConn _ 1 2 (by decide) (by decide)))
    c4conn

/-- Witness for C8 at a concrete input: the pointwise frame property holds
for the store c4state when recomputing anchors for element 1. -/
theorem spec_C8_witness :
    List.Forall₂
      (fun c c' =>
        (¬(c.src = 1 ∨ c.tgt = 1) → c' = c) ∧
        (c' ≠ c → (c.src = 1 ∨ c.tgt = 1)) ∧
        c'.id = c.id ∧ c'.src = c.src ∧ c'.tgt = c.tgt)
      c4state.conns (updateConnectionsForElement c4state 1).conns :=
  spec_C8 c4state 1

/-- Witness for C9 at a concrete input: the minimality and caching
properties instantiated for two concrete elements. -/
theorem spec_C9_witness :
    findBestConnectionPoint (mkElement 1 ElemType.command 0 0 "")
        (mkElement 2 ElemType.event 300 300 "") ∈
      candPairs (mkElement 1 ElemType.command 0 0 "")
        (mkElement 2 ElemType.event 300 300 "") ∧
    (∀ c ∈ candPairs (mkElement 1 ElemType.command 0 0 "")
        (mkElement 2 ElemType.event 300 300 ""),
        Real.sqrt
            ((sqDist
                (findBestConnectionPoint (mkElement 1 ElemType.command 0 0 "")
                    (mkElement 2 ElemType.event 300 300 "")).1
                (findBestConnectionPoint (mkElement 1 ElemType.command 0 0 "")
                    (mkElement 2 ElemType.event 300 300 "")).2 : ℚ) : ℝ) ≤
          Real.sqrt ((sqDist c.1 c.2 : ℚ) : ℝ)) ∧
    (mkConnection 7 (mkElement 1 ElemType.command 0 0 "")
          (mkElement 2 ElemType.event 300 300 "")).sourcePoint =
      (findBestConnectionPoint (mkElement 1 ElemType.command 0 0 "")
          (mkElement 2 ElemType.event 300 300 "")).1 ∧
    (mkConnection 7 (mkElement 1 ElemType.command 0 0 "")
          (mkElement 2 ElemType.event 300 300 "")).targetPoint =
      (findBestConnectionPoint (mkElement 1 ElemType.command 0 0 "")
          (mkElement 2 ElemType.event 300 300 "")).2 ∧
    (mkConnection 7 (mkElement 1 ElemType.command 0 0 "")
          (mkElement 2 ElemType.event 300 300 "")).src =
      (mkElement 1 ElemType.command 0 0 "").id ∧
    (mkConnection 7 (mkElement 1 ElemType.command 0 0 "")
          (mkElement 2 ElemType.event 300 300 "")).tgt =
      (mkElement 2 ElemType.event 300 300 "").id :=
  spec_C9 7 (mkElement 1 ElemType.command 0 0 "") (mkElement 2 ElemType.event 300 300 "")
